import Mathlib

/-!
Verification of the Amex statement-processing core against its source:
`backend/app/services/pdf_processor.py`, `backend/app/services/excel_processor.py`
and `backend/app/tasks/statement_tasks.py`.

Page texts and cell strings are modelled as `List Char`; the Python regular
expressions used by the source are implemented directly as recursive scans with
the same matching semantics (case-insensitive literals, lazy capture, the
`$` end anchor, `.` not matching newlines).
-/

namespace Amex

abbrev Text := List Char

/-- `s.data` of a string literal, as the character-list text type. -/
def txt (s : String) : Text := s.data

/-- Python's default whitespace set for `str.strip` / `str.split` / regex `\s`. -/
def isWS (c : Char) : Bool :=
  c = ' ' || c = '\t' || c = '\n' || c = '\r' || c = Char.ofNat 11 || c = Char.ofNat 12

/-- Python `str.strip()` with no arguments. -/
def pyStrip (t : Text) : Text :=
  ((t.dropWhile isWS).reverse.dropWhile isWS).reverse

/-- Python `str.split()` with no arguments: split on whitespace runs, dropping empties. -/
def pySplitWS (t : Text) : List Text :=
  (t.splitOnP isWS).filter (· ≠ [])

/-- Python `str.split(sep)` for a single-character separator (keeps empties). -/
def splitOnChar (c : Char) (t : Text) : List Text :=
  t.splitOnP (· = c)

/-- ASCII upper-casing, as Python `str.upper()` on the ASCII texts in scope. -/
def pyUpper (t : Text) : Text := t.map Char.toUpper

/-- Case-insensitive character equality (ASCII). -/
def chEqCI (a b : Char) : Bool := a.toLower = b.toLower

/-- Does `t` start with `pat`, case-sensitively? -/
def startsWithCS : Text → Text → Bool
  | [], _ => true
  | _ :: _, [] => false
  | p :: ps, c :: cs => p = c && startsWithCS ps cs

/-- Does `t` start with `pat`, case-insensitively? -/
def startsWithCI : Text → Text → Bool
  | [], _ => true
  | _ :: _, [] => false
  | p :: ps, c :: cs => chEqCI p c && startsWithCI ps cs

/-- Does predicate `p` hold of some suffix of `t` (including the empty suffix)? -/
def scanAny (p : Text → Bool) : Text → Bool
  | [] => p []
  | c :: rest => p (c :: rest) || scanAny p rest

/-- Case-sensitive substring test, Python `pat in t`. -/
def substrCS (pat t : Text) : Bool := scanAny (startsWithCS pat) t

/-- Case-insensitive substring test, Python `re.search` of a literal with `re.IGNORECASE`. -/
def substrCI (pat t : Text) : Bool := scanAny (startsWithCI pat) t

/-- Decimal digits of a natural number, as text. -/
def natChars (n : Nat) : Text := (toString n).data

/-- Join texts with a separator, Python `sep.join(parts)`. -/
def joinSep (sep : Text) : List Text → Text
  | [] => []
  | [t] => t
  | t :: rest => t ++ sep ++ joinSep sep rest

/-! ### The cardholder boundary-marker pattern

`re.findall(r"Total for (.+?)(?:New Charges|Previous Balance|\$|$)", text, re.IGNORECASE)`
from `PDFProcessor.__init__`.  The capture is lazy, `.` does not match `'\n'`,
and the `$` alternative matches at end of string or just before a final newline. -/

/-- Try the terminator alternatives, in the pattern's order, at suffix `s`;
return the suffix after the consumed terminator on success. -/
def termConsume (s : Text) : Option Text :=
  if startsWithCI (txt "New Charges") s then some (s.drop 11)
  else if startsWithCI (txt "Previous Balance") s then some (s.drop 16)
  else match s with
    | '$' :: r => some r
    | [] => some []
    | ['\n'] => some ['\n']
    | _ => none

/-- Lazy `(.+?)` capture: extend one non-newline character at a time, stopping at
the first position where a terminator matches.  Returns (capture, rest after match). -/
def captureFrom : Text → Text → Option (Text × Text)
  | [], _ => none
  | c :: rest, acc =>
    if c = '\n' then none
    else
      match termConsume rest with
      | some after => some (acc ++ [c], after)
      | none => captureFrom rest (acc ++ [c])

/-- `re.findall` scan: at each position try to match the full pattern; on success
resume after the match, otherwise advance one character. -/
def findMarkersAux : Nat → Text → List Text
  | 0, _ => []
  | _ + 1, [] => []
  | fuel + 1, c :: rest =>
    if startsWithCI (txt "Total for ") (c :: rest) then
      match captureFrom ((c :: rest).drop 10) [] with
      | some (cap, after) => cap :: findMarkersAux fuel after
      | none => findMarkersAux fuel rest
    else findMarkersAux fuel rest

/-- All captures of the cardholder pattern found in a page text. -/
def findMarkers (t : Text) : List Text := findMarkersAux t.length t

/-! ### Blank / header-only page classification

`PDFProcessor._is_blank_or_header_only_page`. -/

/-- `\.\d{2}` at the current position. -/
def centsAt : Text → Bool
  | '.' :: a :: b :: _ => a.isDigit && b.isDigit
  | _ => false

/-- `[\d,]+\.\d{2}` at the current position (any split point of the greedy class). -/
def runThenCents : Text → Bool
  | [] => false
  | c :: rest => (c.isDigit || c = ',') && (centsAt rest || runThenCents rest)

/-- `re.search(r"\$[\d,]+\.\d{2}", t)`: a dollar amount appears somewhere. -/
def hasDollarAmount : Text → Bool
  | [] => false
  | '$' :: rest => runThenCents rest || hasDollarAmount rest
  | _ :: rest => hasDollarAmount rest

/-- `\s+` then the literal `w` (case-insensitively), at the current position. -/
def wsRunThen (w : Text) : Text → Bool
  | [] => false
  | c :: rest => isWS c && (startsWithCI w rest || wsRunThen w rest)

/-- `re.search(w1 + r"\s+" + w2, t, re.IGNORECASE)` for literal words. -/
def hasWordGapWord (w1 w2 : Text) (t : Text) : Bool :=
  scanAny (fun s => startsWithCI w1 s && wsRunThen w2 (s.drop w1.length)) t

/-- Consume exactly `k` digits. -/
def kDigits : Nat → Text → Option Text
  | 0, s => some s
  | k + 1, c :: rest => if c.isDigit then kDigits k rest else none
  | _ + 1, [] => none

/-- `\d{2}/\d{2}/` at the current position. -/
def ddSlashDdSlash (s : Text) : Option Text :=
  match kDigits 2 s with
  | some ('/' :: r1) =>
    match kDigits 2 r1 with
    | some ('/' :: r2) => some r2
    | _ => none
  | _ => none

/-- Second date of the pair: `\d{2}/\d{2}/\d{2,4}` with nothing required after
(the minimal two year digits always suffice for existence). -/
def secondDateAt (s : Text) : Bool :=
  match ddSlashDdSlash s with
  | some r => (kDigits 2 r).isSome
  | none => false

/-- After at least one whitespace character (`\s+`), the second date starts at
some split point of the whitespace run. -/
def wsThenSecondDate : Text → Bool
  | [] => false
  | c :: rest => isWS c && (secondDateAt rest || wsThenSecondDate rest)

/-- `re.search(r"\d{2}/\d{2}/\d{2,4}\s+\d{2}/\d{2}/\d{2,4}", t)`. -/
def hasDatePair (t : Text) : Bool :=
  scanAny (fun s =>
    match ddSlashDdSlash s with
    | some r => [2, 3, 4].any (fun k =>
        match kDigits k r with
        | some r2 => wsThenSecondDate r2
        | none => false)
    | none => false) t

/-- The `transaction_indicators` list: any of them present means the page is not blank. -/
def transactionIndicatorPresent (t : Text) : Bool :=
  hasDollarAmount t ||
  substrCI (txt "Total for") t ||
  hasWordGapWord (txt "Transaction") (txt "Date") t ||
  hasWordGapWord (txt "Reference") (txt "Number") t ||
  hasDatePair t ||
  substrCI (txt "PAYMENT") t ||
  substrCI (txt "PURCHASE") t ||
  substrCI (txt "CREDIT") t ||
  substrCI (txt "DEBIT") t

/-- The `header_elements` list from `PDFProcessor.__init__`. -/
def headerElements : List Text :=
  [txt "PREPARED FOR", txt "ACCOUNT NUMBER", txt "CLOSING DATE",
   txt "ACTIVITY CONTINUED", txt "PAGE", txt "AMERICAN EXPRESS",
   txt "SUKUT CONSTRUCTION", txt "EJIM BEHRENS/CBA"]

/-- `PDFProcessor._is_blank_or_header_only_page`. -/
def isBlankOrHeaderOnlyPage (t : Text) : Bool :=
  if (pyStrip t).length < 50 then true
  else if transactionIndicatorPresent t then false
  else if substrCS (txt "Activity Continued") t then
    let lines := splitOnChar '\n' (pyStrip t)
    let counted := lines.filter (fun l =>
      let ls := pyStrip l
      !(headerElements.any (fun x => substrCS x (pyUpper ls))) && decide (ls.length > 10))
    let contentLines := counted.length
    let hasTransactionContent := counted.any (fun l => (pyStrip l).any Char.isDigit)
    decide (contentLines < 3) && !hasTransactionContent
  else false

/-! ### Page-range assignment

`PDFProcessor._find_cardholder_sections` and `PDFProcessor.split_by_cardholder`.
A document is a list of page texts; page numbers are 1-based. -/

/-- The `skip_names` list from `PDFProcessor.__init__`. -/
def skipNames : List Text := [txt "J BEHRENS FIELD 2"]

/-- Text of 1-based page `p` (`pdf.pages[p-1]`). -/
def pageText (pages : List Text) (p : Nat) : Text := pages.getD (p - 1) []

/-- First pass of `_find_cardholder_sections`: walk the pages accumulating
`cardholder_totals` (page, stripped first capture), `blank_pages` and
`summary_pages`, with the `first_total_found` flag. -/
def firstPassGo : List Text → Nat → Bool → List (Nat × Text) × List Nat × List Nat
  | [], _, _ => ([], [], [])
  | t :: rest, p, found =>
    match findMarkers t with
    | m :: _ =>
      let (ts, bs, ss) := firstPassGo rest (p + 1) true
      ((p, pyStrip m) :: ts, bs, ss)
    | [] =>
      if isBlankOrHeaderOnlyPage t then
        let (ts, bs, ss) := firstPassGo rest (p + 1) found
        (ts, p :: bs, ss)
      else if !found then
        let (ts, bs, ss) := firstPassGo rest (p + 1) found
        (ts, bs, p :: ss)
      else firstPassGo rest (p + 1) found

/-- (cardholder totals, blank pages, summary pages) of the whole document. -/
def firstPass (pages : List Text) : List (Nat × Text) × List Nat × List Nat :=
  firstPassGo pages 1 false

/-- The start-page scan for the first assigned cardholder
(`for p in range(1, end_page): ...` with `start_page = 1` as the default). -/
def findFirstStart (pages : List Text) (blanks summary : List Nat) (endP : Nat) : Nat :=
  go 1 (endP - 1)
where
  go (p fuel : Nat) : Nat :=
    match fuel with
    | 0 => 1
    | fuel + 1 =>
      if p ∉ blanks ∧ p ∉ summary then
        let t := pageText pages p
        if ¬ (substrCS (txt "Total for") t = true) ∧ (pyStrip t).length > 50 then p
        else go (p + 1) fuel
      else go (p + 1) fuel

/-- The `while start_page < end_page` loop that advances past blank pages,
appending newly discovered header-only pages to `blank_pages` as the code does.
The loop advances by one page per step, so `endP - start` steps make the fuel
counter hit zero exactly when `start < endP` first fails. -/
def advanceStartGo (pages : List Text) : List Nat → Nat → Nat → Nat × List Nat
  | blanks, start, 0 => (start, blanks)
  | blanks, start, fuel + 1 =>
    if start ∈ blanks then advanceStartGo pages blanks (start + 1) fuel
    else if isBlankOrHeaderOnlyPage (pageText pages start) then
      advanceStartGo pages (blanks ++ [start]) (start + 1) fuel
    else (start, blanks)

def advanceStart (pages : List Text) (blanks : List Nat) (start endP : Nat) :
    Nat × List Nat :=
  advanceStartGo pages blanks start (endP - start)

/-- Python-dict assignment `d[k] = v`: overwrite in place, else append. -/
def dictInsert {α : Type} (k : Text) (v : α) : List (Text × α) → List (Text × α)
  | [] => [(k, v)]
  | (k', v') :: rest => if k' = k then (k', v) :: rest else (k', v') :: dictInsert k v rest

/-- Second pass of `_find_cardholder_sections`: assign a page range per total,
tracking `last_assigned_end` and the (mutable) blank-page list. -/
def assignGo (pages : List Text) (summary : List Nat) :
    List (Nat × Text) → Nat → Nat → List Nat → List (Text × Nat × Nat) →
    List (Text × Nat × Nat)
  | [], _, _, _, acc => acc
  | (endP, name) :: rest, i, last, blanks, acc =>
    if name ∈ skipNames then assignGo pages summary rest (i + 1) endP blanks acc
    else
      let sb : Nat × List Nat :=
        if i = 0 ∨ last = 0 then (findFirstStart pages blanks summary endP, blanks)
        else advanceStart pages blanks (last + 1) endP
      if sb.1 ≤ endP then
        assignGo pages summary rest (i + 1) endP sb.2 (dictInsert name (sb.1, endP) acc)
      else
        assignGo pages summary rest (i + 1) last sb.2 acc

/-- `PDFProcessor._find_cardholder_sections`: cardholder name ↦ (start, end). -/
def findCardholderSections (pages : List Text) : List (Text × Nat × Nat) :=
  let (totals, blanks, summary) := firstPass pages
  assignGo pages summary totals 0 0 blanks []

/-- The `blank_pages_set` computed by `split_by_cardholder`'s own pdfplumber pass:
all pages classified blank/header-only. -/
def blankSet (pages : List Text) : List Nat :=
  ((List.range pages.length).map (· + 1)).filter
    (fun p => isBlankOrHeaderOnlyPage (pageText pages p))

/-- Pages copied into a cardholder's sliced PDF: the assigned range, minus blank
pages other than the final page. -/
def keptPages (pages : List Text) (startP endP : Nat) : List Nat :=
  ((List.range' startP (endP + 1 - startP)).filter
    (fun p => ¬ (p ∈ blankSet pages ∧ p ≠ endP)))

/-- The per-cardholder record built by `split_by_cardholder`. -/
structure SliceInfo where
  pageStart : Nat
  pageEnd : Nat
  keptPageNums : List Nat
  slicePages : List Text
  pagesInPdf : Nat
deriving DecidableEq, Repr

/-- `PDFProcessor.split_by_cardholder` (file-system effects dropped; the sliced
documents are returned in memory). -/
def splitByCardholder (pages : List Text) : List (Text × SliceInfo) :=
  (findCardholderSections pages).filterMap (fun nr =>
    if nr.1 ∈ skipNames then none
    else
      let kept := keptPages pages nr.2.1 nr.2.2
      some (nr.1,
        { pageStart := nr.2.1
          pageEnd := nr.2.2
          keptPageNums := kept
          slicePages := kept.map (pageText pages)
          pagesInPdf := kept.length }))

/-! ### Post-split validation

`PDFProcessor.validate_split`.  The warnings the source builds as f-strings are
modelled as a tagged type together with the exact rendered string, because the
source itself inspects the rendered warnings (substring filter and membership
test) in its "possible transaction data" guard. -/

inductive Warning where
  | cross (page : Nat) (foundName ownName : Text)
  | missingOwn (ownName : Text)
  | possibleData (other ownName : Text)
deriving DecidableEq, Repr

/-- The exact warning strings from `validate_split`. -/
def renderWarning : Warning → Text
  | .cross page foundName ownName =>
    txt "Page " ++ natChars page ++ txt ": Found 'Total for " ++ foundName ++
      txt "' in " ++ ownName ++ txt "'s PDF!"
  | .missingOwn ownName =>
    txt "Missing 'Total for " ++ ownName ++ txt "' in their own PDF!"
  | .possibleData other ownName =>
    txt "Possible transaction data for '" ++ other ++ txt "' found in " ++
      ownName ++ txt "'s PDF"

/-- Is there a `'$'` later on the same line (`.*\$` with `.` not matching `'\n'`)? -/
def dollarBeforeNewline : Text → Bool
  | [] => false
  | '$' :: _ => true
  | '\n' :: _ => false
  | _ :: rest => dollarBeforeNewline rest

/-- `re.search(f"(Transaction|Amount|{other}.*\\$)", full_text, re.IGNORECASE)`. -/
def transactionContextPattern (other full : Text) : Bool :=
  substrCI (txt "Transaction") full ||
  substrCI (txt "Amount") full ||
  scanAny (fun s => startsWithCI other s && dollarBeforeNewline (s.drop other.length)) full

/-- The page-by-page `Total for` warnings of one slice, in source order:
every found name different from the owner yields a cross-contamination warning. -/
def crossWarnings (name : Text) (spages : List Text) : List Warning :=
  (List.enumFrom 1 spages).flatMap (fun pt =>
    (findMarkers pt.2).filterMap (fun m =>
      if pyStrip m = name then none else some (.cross pt.1 (pyStrip m) name)))

/-- Whether the owner's own `Total for` line was found anywhere in the slice. -/
def ownTotalFound (name : Text) (spages : List Text) : Bool :=
  spages.any (fun t => (findMarkers t).any (fun m => pyStrip m = name))

/-- `full_text`: page texts joined with a newline after each. -/
def fullTextOf (spages : List Text) : Text :=
  spages.foldl (fun acc t => acc ++ t ++ ['\n']) []

/-- The loop over the other cardholders, appending "possible transaction data"
warnings; the membership guard operates on the rendered warnings exactly as the
source compares f-strings. -/
def possibleLoop (name fullText : Text) (allNames : List Text) (ws : List Warning) :
    List Warning :=
  allNames.foldl (fun ws other =>
    if other ≠ name ∧
        substrCS (pyUpper other) (pyUpper fullText) = true ∧
        transactionContextPattern other fullText = true ∧
        (txt "Total for " ++ other) ∉
          ((ws.filter (fun w => substrCS other (renderWarning w))).map renderWarning)
    then ws ++ [.possibleData other name]
    else ws) ws

/-- All warnings produced for one cardholder's slice. -/
def sliceWarningsOf (allNames : List Text) (name : Text) (spages : List Text) :
    List Warning :=
  let ws := crossWarnings name spages ++
    (if ownTotalFound name spages then [] else [.missingOwn name])
  possibleLoop name (fullTextOf spages) allNames ws

/-- `PDFProcessor.validate_split`: cardholder ↦ warnings, only when non-empty. -/
def validateSplit (slices : List (Text × List Text)) : List (Text × List Warning) :=
  let allNames := slices.map Prod.fst
  slices.filterMap (fun nps =>
    let ws := sliceWarningsOf allNames nps.1 nps.2
    if ws = [] then none else some (nps.1, ws))

/-- Some page of the slice carries a `Total for` marker for a different name. -/
def hasForeignMarker (name : Text) (spages : List Text) : Bool :=
  spages.any (fun t => (findMarkers t).any (fun m => decide (pyStrip m ≠ name)))

/-- The condition under which the "possible transaction data" loop fires for
`other` (its rendered-warning membership guard is always true). -/
def possibleCondition (name fullText other : Text) : Bool :=
  decide (other ≠ name) && substrCS (pyUpper other) (pyUpper fullText) &&
    transactionContextPattern other fullText

/-! ### Binary64 arithmetic model

The backend stores every amount as a Python `float` (IEEE-754 binary64): see
`ExcelProcessor._clean_amount` and the `Column(Float)` amount fields.  A double
is modelled exactly as an integer significand and power-of-two exponent; the
rounding of an arbitrary fraction is round-to-nearest, ties-to-even at 53
significant bits (the amounts in scope are nowhere near overflow or
subnormals).  All arithmetic is on `Int`/`Nat` so that concrete computations
reduce; `ℚ` appears only when interpreting a value in a theorem statement. -/

/-- An IEEE-754 binary64 value `m · 2^e` (sign carried by `m`). -/
structure F64 where
  m : ℤ
  e : ℤ
deriving DecidableEq, Repr

/-- `2^k` as an integer. -/
def ipow2 (k : ℕ) : ℤ := 2 ^ k

/-- `Nat.log2` by structural (fuel) recursion, so concrete values reduce. -/
def natLog2Go : Nat → Nat → Nat
  | 0, _ => 0
  | fuel + 1, n => if n ≥ 2 then natLog2Go fuel (n / 2) + 1 else 0

def natLog2 (n : Nat) : Nat := natLog2Go n n

/-- Round the fraction `num / den` (`den > 0`) to the nearest binary64 value,
ties to even: find the exponent `e` with `2^52 ≤ |num/den| · 2^(-e) < 2^53`
near the log2 estimate, then round the scaled significand. -/
def roundB64Frac (num : ℤ) (den : ℕ) : F64 :=
  if num = 0 then ⟨0, 0⟩
  else
    let a : ℕ := num.natAbs
    let b : ℤ := (natLog2 a : ℤ) - (natLog2 den : ℤ)
    let scaled : ℤ → ℕ × ℕ := fun e =>
      if e ≥ 0 then (a, den * 2 ^ e.toNat) else (a * 2 ^ (-e).toNat, den)
    let ok : ℤ → Bool := fun e =>
      decide (2 ^ 52 * (scaled e).2 ≤ (scaled e).1) &&
      decide ((scaled e).1 < 2 ^ 53 * (scaled e).2)
    let e := (([b - 54, b - 53, b - 52, b - 51] : List ℤ).find? ok).getD (b - 52)
    let A := (scaled e).1
    let B := (scaled e).2
    let m0 := A / B
    let r := A % B
    let m : ℕ :=
      if B < 2 * r then m0 + 1
      else if 2 * r < B then m0
      else if m0 % 2 = 0 then m0 else m0 + 1
    ⟨(if num < 0 then -1 else 1) * (m : ℤ), e⟩

/-- The exact sum of two binary64 values, as a dyadic pair `(M, e)` of value
`M · 2^e` (align to the smaller exponent). -/
def F64.addExact (x y : F64) : ℤ × ℤ :=
  let e := min x.e y.e
  (x.m * ipow2 (x.e - e).toNat + y.m * ipow2 (y.e - e).toNat, e)

/-- Round a dyadic value `M · 2^e` to binary64. -/
def roundDyadic (Me : ℤ × ℤ) : F64 :=
  if Me.2 ≥ 0 then roundB64Frac (Me.1 * ipow2 Me.2.toNat) 1
  else roundB64Frac Me.1 (2 ^ (-Me.2).toNat)

/-- IEEE-754 addition: the exact sum, rounded to the nearest binary64 value. -/
def F64.add (x y : F64) : F64 := roundDyadic (x.addExact y)

def F64.toPair (x : F64) : ℤ × ℤ := (x.m, x.e)

/-- Value equality of two dyadic pairs, by power-of-two cross-multiplication. -/
def dyaEq (p q : ℤ × ℤ) : Bool :=
  let e := min p.2 q.2
  decide (p.1 * ipow2 (p.2 - e).toNat = q.1 * ipow2 (q.2 - e).toNat)

/-- The exact rational value of a dyadic pair. -/
def dyaToRat (p : ℤ × ℤ) : ℚ :=
  if p.2 ≥ 0 then (p.1 : ℚ) * 2 ^ p.2.toNat else (p.1 : ℚ) / 2 ^ (-p.2).toNat

/-- The exact rational value of a binary64 value. -/
def F64.toRat (x : F64) : ℚ := dyaToRat (x.m, x.e)

/-- Python's `sum` over a list of floats: a left fold of IEEE additions
starting from zero (`0 + x` is exact). -/
def floatSumF (amounts : List F64) : F64 := amounts.foldl F64.add ⟨0, 0⟩

/-- Does every addition step of the float sum round an exactly representable
value (no rounding error anywhere in the chain)? -/
def exactChain (acc : F64) : List F64 → Bool
  | [] => true
  | a :: rest =>
    dyaEq (roundDyadic (acc.addExact a)).toPair (acc.addExact a) &&
      exactChain (acc.add a) rest

/-! ### Tabular extraction

`ExcelProcessor._find_header_row`, `_map_columns`, `parse_statement`,
`_clean_value`, `_clean_amount`, `_clean_date`.  A worksheet is a row-major
grid of cells; a cell holds `None`, a string, a number (an openpyxl float,
given by its exact rational value) or a datetime. -/

inductive CellValue where
  | none
  | str (s : Text)
  | num (x : F64)
  | date (d : Nat × Nat × Nat)
deriving DecidableEq, Repr

structure Sheet where
  rows : List (List CellValue)
deriving DecidableEq, Repr

/-- `sheet.cell(row=r, column=c).value`, 1-based; absent cells are `None`. -/
def Sheet.cellAt (sh : Sheet) (r c : Nat) : CellValue :=
  (sh.rows.getD (r - 1) []).getD (c - 1) CellValue.none

def Sheet.maxRow (sh : Sheet) : Nat := sh.rows.length

def Sheet.maxCol (sh : Sheet) : Nat := sh.rows.foldl (fun m row => max m row.length) 0

/-- `if cell_value and "Product" in str(cell_value)` for the header-row probe.
A numeric or datetime cell renders to digits and punctuation only, so it can
never contain the letters of `"Product"`; `None` and `""` are falsy. -/
def productCell : CellValue → Bool
  | .str s => s ≠ [] && substrCS (txt "Product") s
  | _ => false

/-- `ExcelProcessor._find_header_row`: scan rows 1..29, first column. -/
def findHeaderRow (sh : Sheet) : Option Nat :=
  (List.range' 1 29).find? (fun r => productCell (sh.cellAt r 1))

/-- The recognized fields of `_map_columns`. -/
inductive Field where
  | basicCardAccount
  | suppLastName
  | suppFirstName
  | suppCardNumber
  | businessProcessDate
  | transactionDate
  | amount
  | transactionReference
  | description (i : Nat)
deriving DecidableEq, Repr

/-- Python-dict assignment for a field-keyed map. -/
def fieldInsert {α : Type} (k : Field) (v : α) : List (Field × α) → List (Field × α)
  | [] => [(k, v)]
  | (k', v') :: rest => if k' = k then (k', v) :: rest else (k', v') :: fieldInsert k v rest

/-- `' '.join(str(header).split())`: collapse whitespace.  A numeric or datetime
header renders without letters, so it matches none of the catalog labels; it is
therefore treated like an unmatchable header. -/
def headerNormalized : CellValue → Option Text
  | .str s => if s = [] then Option.none else some (joinSep [' '] (pySplitWS s))
  | _ => Option.none

/-- The `elif` chain of `_map_columns` for one header cell, followed by the
independent description-column loop (`for i in range(1, 17)`). -/
def mapOneHeader (h : Text) (col : Nat) (cm : List (Field × Nat)) : List (Field × Nat) :=
  let cm1 :=
    if substrCS (txt "Basic Card Account No") h then fieldInsert .basicCardAccount col cm
    else if substrCS (txt "Supplemental Cardmember Last Name") h then
      fieldInsert .suppLastName col cm
    else if substrCS (txt "Supplemental Cardmember First Name") h then
      fieldInsert .suppFirstName col cm
    else if substrCS (txt "Supplemental Account Number") h then
      fieldInsert .suppCardNumber col cm
    else if substrCS (txt "Business Process Date") h then
      fieldInsert .businessProcessDate col cm
    else if substrCS (txt "Transaction Date") h && !substrCS (txt "Reference") h then
      fieldInsert .transactionDate col cm
    else if substrCS (txt "Transaction Amount USD") h then fieldInsert .amount col cm
    else if substrCS (txt "Transaction Reference") h then
      fieldInsert .transactionReference col cm
    else cm
  (List.range' 1 16).foldl (fun cm i =>
    if substrCS (txt "Transaction Description " ++ natChars i) h then
      fieldInsert (.description i) col cm
    else cm) cm1

/-- The column map built by scanning every header cell of the header row. -/
def buildColumnMap (sh : Sheet) (headerRow : Nat) : List (Field × Nat) :=
  (List.range' 1 sh.maxCol).foldl (fun cm col =>
    match headerNormalized (sh.cellAt headerRow col) with
    | some h => mapOneHeader h col cm
    | Option.none => cm) []

/-- The required-column check at the end of `_map_columns`. -/
def requiredFields : List Field := [.amount, .businessProcessDate, .transactionDate]

inductive ExcelError where
  | headerNotFound
  | missingRequiredColumns (missing : List Field)
  | amountParseError
deriving DecidableEq, Repr

instance exceptDecEq {ε α : Type} [DecidableEq ε] [DecidableEq α] :
    DecidableEq (Except ε α)
  | .error e, .error f =>
    if h : e = f then .isTrue (by rw [h]) else .isFalse (by intro hc; cases hc; exact h rfl)
  | .error _, .ok _ => .isFalse (by intro hc; cases hc)
  | .ok _, .error _ => .isFalse (by intro hc; cases hc)
  | .ok a, .ok b =>
    if h : a = b then .isTrue (by rw [h]) else .isFalse (by intro hc; cases hc; exact h rfl)

/-- `ExcelProcessor._map_columns`: build the map, then fail when any of
`['amount', 'business_process_date', 'transaction_date']` is missing. -/
def mapColumns (sh : Sheet) (headerRow : Nat) : Except ExcelError (List (Field × Nat)) :=
  let cm := buildColumnMap sh headerRow
  let missing := requiredFields.filter (fun f => (cm.lookup f).isNone)
  if missing = [] then .ok cm else .error (.missingRequiredColumns missing)

/-- `ExcelProcessor._clean_value`: `""` for `None`, else `str(value).strip()`.
The numeric and datetime renderings are digit/punctuation stand-ins (Python's
float repr is not modelled); every property proved below exercises this
function on string and `None` cells only. -/
def cleanValue : CellValue → Text
  | .none => []
  | .str s => pyStrip s
  | .num x => (toString x.m).data ++ (if x.e = 0 then txt ".0" else txt "")
  | .date d => natChars d.1 ++ txt "/" ++ natChars d.2.1 ++ txt "/" ++ natChars d.2.2

/-- Digits to a natural number. -/
def digitsToNat (ds : Text) : Nat := ds.foldl (fun n c => n * 10 + (c.toNat - 48)) 0

/-- A parsed decimal literal `[sign] digits [. digits] [e [sign] digits]`,
returned as an exact fraction (numerator, positive denominator), as Python
`float(str)` accepts for the plain decimal forms in scope (`inf`/`nan` and
underscore separators are not exercised by this program's data). -/
def parseDecimal (t : Text) : Option (ℤ × ℕ) :=
  let s := pyStrip t
  let (sign, s1) : ℤ × Text :=
    match s with
    | '-' :: r => (-1, r)
    | '+' :: r => (1, r)
    | _ => (1, s)
  let intPart := s1.takeWhile Char.isDigit
  let rest1 := s1.dropWhile Char.isDigit
  let (fracPart, rest2) : Text × Text :=
    match rest1 with
    | '.' :: r => (r.takeWhile Char.isDigit, r.dropWhile Char.isDigit)
    | _ => ([], rest1)
  if intPart = [] ∧ fracPart = [] then Option.none
  else
    let num : ℤ := sign * (digitsToNat (intPart ++ fracPart) : ℤ)
    let den : ℕ := 10 ^ fracPart.length
    match rest2 with
    | [] => some (num, den)
    | 'e' :: r => parseExpPart num den r
    | 'E' :: r => parseExpPart num den r
    | _ => Option.none
where
  parseExpPart (num : ℤ) (den : ℕ) (r : Text) : Option (ℤ × ℕ) :=
    let (eneg, r1) : Bool × Text :=
      match r with
      | '-' :: rr => (true, rr)
      | '+' :: rr => (false, rr)
      | _ => (false, r)
    let eDigits := r1.takeWhile Char.isDigit
    if eDigits = [] ∨ r1.dropWhile Char.isDigit ≠ [] then Option.none
    else if eneg then some (num, den * 10 ^ digitsToNat eDigits)
    else some (num * (10 : ℤ) ^ digitsToNat eDigits, den)

/-- Python `float(string)`: parse the decimal, then round to binary64. -/
def pyFloatOfString (t : Text) : Option F64 :=
  (parseDecimal t).map (fun nd => roundB64Frac nd.1 nd.2)

/-- `ExcelProcessor._clean_amount`: numbers pass through, strings are stripped
of `','`/`'$'` and converted with `float(...)` — which raises (aborting the
extraction) when unparseable.  `str(datetime)` is never a valid float literal. -/
def cleanAmount : CellValue → Except ExcelError F64
  | .none => .ok ⟨0, 0⟩
  | .num x => .ok x
  | .str s =>
    match pyFloatOfString (s.filter (fun c => !(c = ',' || c = '$'))) with
    | some x => .ok x
    | Option.none => .error .amountParseError
  | .date _ => .error .amountParseError

/-- `ExcelProcessor._clean_date`: datetimes pass through; strings are parsed as
`%m/%d/%Y`; anything else becomes `None` (never an error). -/
def cleanDate : CellValue → Option (Nat × Nat × Nat)
  | .date d => some d
  | .str s =>
    match (splitOnChar '/' (pyStrip s)).map (fun p => (p, digitsToNat p)) with
    | [(ms, m), (ds, d), (ys, y)] =>
      if ms ≠ [] ∧ ms.all Char.isDigit ∧ ms.length ≤ 2 ∧
          ds ≠ [] ∧ ds.all Char.isDigit ∧ ds.length ≤ 2 ∧
          ys.all Char.isDigit ∧ ys.length = 4 ∧
          1 ≤ m ∧ m ≤ 12 ∧ 1 ≤ d ∧ d ≤ 31
      then some (m, d, y) else Option.none
    | _ => Option.none
  | _ => Option.none

/-- The transaction record built for each data row of `parse_statement`. -/
structure Transaction where
  firstName : Text
  lastName : Text
  cardNumber : Text
  amount : F64
  transactionDate : Option (Nat × Nat × Nat)
  postingDate : Option (Nat × Nat × Nat)
  merchant : Text
  description : Text
  referenceNumber : Text
  rowNumber : Nat
deriving DecidableEq, Repr

/-- Append a value to the group of key `k`, creating the group at the end when
absent — Python-dict insertion order. -/
def addToGroup (k : Text) (v : Transaction) :
    List (Text × List Transaction) → List (Text × List Transaction)
  | [] => [(k, [v])]
  | (k', vs) :: rest =>
    if k' = k then (k', vs ++ [v]) :: rest else (k', vs) :: addToGroup k v rest

/-- Cell of row `r` at the column mapped for `f`, or `None` when `f` is unmapped
(`self.column_map.get(f, 0)` reads column 0, which holds no cell). -/
def fieldCell (sh : Sheet) (cm : List (Field × Nat)) (r : Nat) (f : Field) : CellValue :=
  match cm.lookup f with
  | some c => sh.cellAt r c
  | Option.none => CellValue.none

/-- The populated description fragments of a row, in column-catalog order. -/
def descParts (sh : Sheet) (cm : List (Field × Nat)) (r : Nat) : List Text :=
  (List.range' 1 16).filterMap (fun i =>
    match cm.lookup (.description i) with
    | some c =>
      let v := cleanValue (sh.cellAt r c)
      if v = [] then Option.none else some v
    | Option.none => Option.none)

/-- The data-row loop of `parse_statement`: skip rows with no amount value, skip
rows lacking a supplemental name, and abort on an unparseable amount (the
`float` ValueError propagates out of the loop). -/
def processRows (sh : Sheet) (cm : List (Field × Nat)) :
    List Nat → List (Text × List Transaction) →
    Except ExcelError (List (Text × List Transaction))
  | [], acc => .ok acc
  | r :: rest, acc =>
    let amountValue := fieldCell sh cm r .amount
    if amountValue = CellValue.none then processRows sh cm rest acc
    else
      let firstName := cleanValue (fieldCell sh cm r .suppFirstName)
      let lastName := cleanValue (fieldCell sh cm r .suppLastName)
      let cardNumber := cleanValue (fieldCell sh cm r .suppCardNumber)
      if firstName = [] ∨ lastName = [] then processRows sh cm rest acc
      else
        let fn := pyUpper firstName
        let ln := pyUpper lastName
        let cardholderName := fn ++ [' '] ++ ln
        let parts := descParts sh cm r
        match cleanAmount amountValue with
        | .error e => .error e
        | .ok amt =>
          let tx : Transaction :=
            { firstName := fn
              lastName := ln
              cardNumber := cardNumber
              amount := amt
              transactionDate := cleanDate (fieldCell sh cm r .transactionDate)
              postingDate := cleanDate (fieldCell sh cm r .businessProcessDate)
              merchant := parts.headD []
              description := joinSep (txt " | ") parts
              referenceNumber := cleanValue (fieldCell sh cm r .transactionReference)
              rowNumber := r }
          processRows sh cm rest (addToGroup cardholderName tx acc)

/-- `ExcelProcessor.parse_statement`: cardholder name ↦ transaction list. -/
def parseStatement (sh : Sheet) : Except ExcelError (List (Text × List Transaction)) :=
  match findHeaderRow sh with
  | Option.none => .error .headerNotFound
  | some hr =>
    match mapColumns sh hr with
    | .error e => .error e
    | .ok cm => processRows sh cm (List.range' (hr + 1) (sh.maxRow - hr)) []

/-! ### Reconciliation

The matching loop of `process_statement_task` (statement_tasks.py, lines
127–153): exact dict lookup, then the first+last-token fuzzy fallback, then the
per-cardholder totals. -/

/-- The fuzzy-match test: both names split into at least two whitespace tokens,
equal first tokens and equal last tokens. -/
def fuzzyMatch (pdfName excelName : Text) : Bool :=
  let a := pySplitWS pdfName
  let b := pySplitWS excelName
  decide (a.length ≥ 2) && decide (b.length ≥ 2) &&
    decide (a.headD [] = b.headD []) && decide (a.getLastD [] = b.getLastD [])

/-- The transactions attributed to a document-derived cardholder: the exact
key's list when present, otherwise the list of the first fuzzy-matching key. -/
def matchTransactions (excel : List (Text × List Transaction)) (name : Text) :
    List Transaction :=
  match excel.lookup name with
  | some ts => ts
  | Option.none =>
    match excel.find? (fun kv => fuzzyMatch name kv.1) with
    | some kv => kv.2
    | Option.none => []

/-- The aggregate fields of the `CardholderStatement` record: a float sum of the
matched amounts, and the matched-list length. -/
structure StatementTotals where
  totalAmount : F64
  transactionCount : Nat
deriving DecidableEq, Repr

def mkStatementTotals (ts : List Transaction) : StatementTotals :=
  { totalAmount := floatSumF (ts.map Transaction.amount)
    transactionCount := ts.length }

/-! ### Concrete fixtures -/

/-- A content page: long enough not to be blank, carries no marker. -/
def contentPage : Text :=
  txt "Charges and activity for the period are listed below for careful review"

/-- A boundary page carrying `Total for <name>` terminated by a dollar amount. -/
def boundaryPage (n : String) : Text :=
  txt ("Charges summary Total for " ++ n ++ " $1,234.56 listed")

/-- A short header-only page (classified blank). -/
def blankPage : Text := txt "Page 5 of 10"

/-- The spec's 10-page scenario: boundary markers on pages 3, 7 and 10, a blank
page at page 5, content elsewhere. -/
def docScenario : List Text :=
  [contentPage, contentPage, boundaryPage "ALICE ADAMS", contentPage, blankPage,
   contentPage, boundaryPage "BOB BAKER", contentPage, contentPage,
   boundaryPage "CARA COLE"]

/-- Counterexample document for the page-accounting claim: a leading summary
page, one boundary page, and a trailing content page after the last boundary. -/
def docGap : List Text := [contentPage, boundaryPage "ALICE ADAMS", contentPage]

/-- Counterexample slice set for validation: the owner's marker appears twice. -/
def slicesDupOwn : List (Text × List Text) :=
  [(txt "ALICE ADAMS", [boundaryPage "ALICE ADAMS", boundaryPage "ALICE ADAMS"])]

/-- A contaminated slice set: Alice's boundary page leaked into Bob's slice. -/
def slicesContam : List (Text × List Text) :=
  [(txt "ALICE ADAMS", [boundaryPage "ALICE ADAMS"]),
   (txt "BOB BAKER", [boundaryPage "ALICE ADAMS", boundaryPage "BOB BAKER"])]

/-- Header sheet missing only `Business Process Date`. -/
def sheetNoBpd : Sheet :=
  ⟨[[.str (txt "Product Type"), .str (txt "Transaction Amount USD"),
     .str (txt "Transaction Date")]]⟩

/-- Sheet whose second row holds an unparseable amount string, followed by a
perfectly good row. -/
def sheetBadAmount : Sheet :=
  ⟨[[.str (txt "Product"), .str (txt "Supplemental Cardmember First Name"),
     .str (txt "Supplemental Cardmember Last Name"), .str (txt "Transaction Amount USD"),
     .str (txt "Business Process Date"), .str (txt "Transaction Date")],
    [.none, .str (txt "John"), .str (txt "Smith"), .str (txt "abc"), .none, .none],
    [.none, .str (txt "Jane"), .str (txt "Doe"), .num ⟨5, 0⟩, .none, .none]]⟩

/-- Sheet with empty supplemental names but populated basic (primary) name
columns on the data row. -/
def sheetBasicOnly : Sheet :=
  ⟨[[.str (txt "Product"), .str (txt "Supplemental Cardmember First Name"),
     .str (txt "Supplemental Cardmember Last Name"), .str (txt "Basic Cardmember First Name"),
     .str (txt "Basic Cardmember Last Name"), .str (txt "Transaction Amount USD"),
     .str (txt "Business Process Date"), .str (txt "Transaction Date")],
    [.none, .none, .none, .str (txt "John"), .str (txt "Doe"), .num ⟨5, 0⟩, .none, .none]]⟩

/-- Sheet with the required columns but no supplemental-name columns at all. -/
def sheetNoNames : Sheet :=
  ⟨[[.str (txt "Product"), .str (txt "Transaction Amount USD"),
     .str (txt "Business Process Date"), .str (txt "Transaction Date")],
    [.none, .num ⟨3, 0⟩, .none, .none],
    [.none, .str (txt "7.25"), .none, .none]]⟩

/-- Sheet whose one cardholder has the amounts `0.1` and `0.2`. -/
def sheetTenths : Sheet :=
  ⟨[[.str (txt "Product"), .str (txt "Supplemental Cardmember First Name"),
     .str (txt "Supplemental Cardmember Last Name"), .str (txt "Transaction Amount USD"),
     .str (txt "Business Process Date"), .str (txt "Transaction Date")],
    [.none, .str (txt "John"), .str (txt "Smith"), .str (txt "0.1"), .none, .none],
    [.none, .str (txt "John"), .str (txt "Smith"), .str (txt "0.2"), .none, .none]]⟩

/-- A concrete transaction record for the reconciliation fixtures. -/
def txSample : Transaction :=
  { firstName := txt "JOHN", lastName := txt "Q SMITH", cardNumber := txt "1234"
    amount := ⟨5, 0⟩, transactionDate := Option.none, postingDate := Option.none
    merchant := txt "VENDOR", description := txt "VENDOR", referenceNumber := txt "R1"
    rowNumber := 2 }

/-- Tabular grouping keyed `"JOHN Q SMITH"`, as built from
`first_name="JOHN", last_name="Q SMITH"`. -/
def excelGroups : List (Text × List Transaction) := [(txt "JOHN Q SMITH", [txSample])]

/-! ## Helper lemmas -/

/-- With no supplemental-first-name column mapped, every data row is skipped. -/
theorem processRows_no_supp_first (sh : Sheet) (cm : List (Field × Nat))
    (h1 : cm.lookup Field.suppFirstName = Option.none) :
    ∀ (rows : List Nat) (acc : List (Text × List Transaction)),
    processRows sh cm rows acc = .ok acc := by
  intro rows
  induction rows with
  | nil => intro acc; rfl
  | cons r rest ih =>
    intro acc
    have hfc : fieldCell sh cm r Field.suppFirstName = CellValue.none := by
      simp [fieldCell, h1]
    by_cases h : fieldCell sh cm r Field.amount = CellValue.none
    · simp [processRows, h, ih]
    · simp [processRows, h, hfc, cleanValue, ih]

/-- The rational value of a dyadic pair, in integer-power form. -/
theorem dyaToRat_eq_zpow (p : ℤ × ℤ) : dyaToRat p = (p.1 : ℚ) * (2 : ℚ) ^ p.2 := by
  unfold dyaToRat
  by_cases h : p.2 ≥ 0
  · rw [if_pos h, ← zpow_natCast (2 : ℚ) p.2.toNat, Int.toNat_of_nonneg h]
  · rw [if_neg h, ← zpow_natCast (2 : ℚ) (-p.2).toNat,
      Int.toNat_of_nonneg (by omega), zpow_neg, div_eq_mul_inv, inv_inv]

/-- Scaling a dyadic pair to a common smaller exponent preserves its value. -/
theorem dyaToRat_scale (M e f : ℤ) (h : f ≤ e) :
    dyaToRat (M, e) = ((M * ipow2 (e - f).toNat : ℤ) : ℚ) * (2 : ℚ) ^ f := by
  rw [dyaToRat_eq_zpow]
  push_cast [ipow2]
  rw [← zpow_natCast (2 : ℚ) (e - f).toNat,
    mul_assoc, ← zpow_add₀ (by norm_num : (2 : ℚ) ≠ 0)]
  have hexp : ((e - f).toNat : ℤ) + f = e := by omega
  rw [hexp]

/-- Power-of-two cross-multiplication equality is sound for the values. -/
theorem dyaEq_sound {p q : ℤ × ℤ} (h : dyaEq p q = true) : dyaToRat p = dyaToRat q := by
  unfold dyaEq at h
  rw [decide_eq_true_eq] at h
  have hp := dyaToRat_scale p.1 p.2 (min p.2 q.2) (min_le_left _ _)
  have hq := dyaToRat_scale q.1 q.2 (min p.2 q.2) (min_le_right _ _)
  simp only [Prod.mk.eta] at hp hq
  rw [hp, hq, h]

/-- The exact dyadic sum has the sum of the two values. -/
theorem addExact_toRat (x y : F64) :
    dyaToRat (x.addExact y) = x.toRat + y.toRat := by
  unfold F64.addExact F64.toRat
  rw [dyaToRat_eq_zpow]
  have hx := dyaToRat_scale x.m x.e (min x.e y.e) (min_le_left _ _)
  have hy := dyaToRat_scale y.m y.e (min x.e y.e) (min_le_right _ _)
  rw [hx, hy]
  push_cast
  ring

/-- When every addition step of the chain rounds an exactly representable
value, the float sum equals the exact rational sum. -/
theorem floatSumF_exact_of_chain :
    ∀ (l : List F64) (acc : F64), exactChain acc l = true →
      (l.foldl F64.add acc).toRat = acc.toRat + (l.map F64.toRat).sum := by
  intro l
  induction l with
  | nil => intro acc _; simp
  | cons a rest ih =>
    intro acc hchain
    rw [exactChain, Bool.and_eq_true] at hchain
    have hstep : (acc.add a).toRat = acc.toRat + a.toRat := by
      have := dyaEq_sound hchain.1
      rw [show (acc.add a).toRat = dyaToRat (roundDyadic (acc.addExact a)).toPair from rfl]
      rw [this, addExact_toRat]
    simp only [List.foldl_cons, List.map_cons, List.sum_cons]
    rw [ih (acc.add a) hchain.2, hstep]
    ring

/-- No rendered warning is ever the bare string `"Total for " ++ other`:
every rendered warning starts with `'P'` or `'M'`. -/
theorem renderWarning_ne (w : Warning) (other : Text) :
    renderWarning w ≠ txt "Total for " ++ other := by
  cases w with
  | cross page foundName ownName =>
    intro h
    have hh : ('P' : Char) = 'T' := congrArg (fun l => l.headD ' ') h
    exact absurd hh (by decide)
  | missingOwn ownName =>
    intro h
    have hh : ('M' : Char) = 'T' := congrArg (fun l => l.headD ' ') h
    exact absurd hh (by decide)
  | possibleData o1 o2 =>
    intro h
    have hh : ('P' : Char) = 'T' := congrArg (fun l => l.headD ' ') h
    exact absurd hh (by decide)

/-- The "possible transaction data" loop appends exactly the candidates passing
`possibleCondition`: its rendered-warning membership guard can never veto. -/
theorem possibleLoop_eq (name fullText : Text) :
    ∀ (allNames : List Text) (ws : List Warning),
    possibleLoop name fullText allNames ws =
      ws ++ (allNames.filter (possibleCondition name fullText)).map
        (fun other => Warning.possibleData other name) := by
  intro allNames
  induction allNames with
  | nil => intro ws; simp [possibleLoop]
  | cons other rest ih =>
    intro ws
    have hstep : possibleLoop name fullText (other :: rest) ws =
        possibleLoop name fullText rest
          (if other ≠ name ∧
              substrCS (pyUpper other) (pyUpper fullText) = true ∧
              transactionContextPattern other fullText = true ∧
              (txt "Total for " ++ other) ∉
                ((ws.filter (fun w => substrCS other (renderWarning w))).map renderWarning)
            then ws ++ [.possibleData other name] else ws) := by
      simp [possibleLoop]
    rw [hstep]
    have hguard : (txt "Total for " ++ other) ∉
        ((ws.filter (fun w => substrCS other (renderWarning w))).map renderWarning) := by
      intro hmem
      obtain ⟨w, _, hw⟩ := List.mem_map.mp hmem
      exact renderWarning_ne w other hw
    by_cases hc : possibleCondition name fullText other = true
    · rw [possibleCondition, Bool.and_eq_true, Bool.and_eq_true, decide_eq_true_eq] at hc
      rw [if_pos ⟨hc.1.1, hc.1.2, hc.2, hguard⟩, ih, List.filter_cons_of_pos (by
        rw [possibleCondition, Bool.and_eq_true, Bool.and_eq_true, decide_eq_true_eq]
        exact hc)]
      simp
    · rw [if_neg (by
        intro hcon
        apply hc
        rw [possibleCondition, Bool.and_eq_true, Bool.and_eq_true, decide_eq_true_eq]
        exact ⟨⟨hcon.1, hcon.2.1⟩, hcon.2.2.1⟩), ih,
        List.filter_cons_of_neg (by simpa using hc)]

/-- The page-by-page warnings are empty exactly when no foreign marker occurs. -/
theorem crossWarnings_eq_nil_iff (name : Text) :
    ∀ (l : List Text) (k : Nat),
    (((List.enumFrom k l).flatMap (fun pt =>
        (findMarkers pt.2).filterMap (fun m =>
          if pyStrip m = name then none
          else some (Warning.cross pt.1 (pyStrip m) name)))) = []) ↔
      (l.any (fun t => (findMarkers t).any (fun m => decide (pyStrip m ≠ name))) = false)
    := by
  intro l
  induction l with
  | nil => intro k; simp
  | cons t rest ih =>
    intro k
    simp only [List.enumFrom_cons, List.flatMap_cons, List.append_eq_nil,
      List.any_cons, Bool.or_eq_false_iff, ih (k + 1)]
    constructor
    · intro ⟨h1, h2⟩
      refine ⟨?_, h2⟩
      rw [List.any_eq_false]
      intro m hm
      have := (List.filterMap_eq_nil_iff.mp h1) m hm
      by_cases hs : pyStrip m = name
      · simp [hs]
      · rw [if_neg hs] at this; cases this
    · intro ⟨h1, h2⟩
      refine ⟨?_, h2⟩
      rw [List.filterMap_eq_nil_iff]
      intro m hm
      have := (List.any_eq_false.mp h1) m hm
      rw [if_pos (by simpa using this)]

/-- Position facts for members of `List.enumFrom`. -/
theorem mem_enumFrom_facts {α : Type} [Inhabited α] :
    ∀ (l : List α) (k pg : Nat) (t : α),
    (pg, t) ∈ List.enumFrom k l → k ≤ pg ∧ pg < k + l.length ∧ l.getD (pg - k) default = t
    := by
  intro l
  induction l with
  | nil => intro k pg t h; cases h
  | cons a rest ih =>
    intro k pg t h
    rw [List.enumFrom_cons, List.mem_cons] at h
    rcases h with h | h
    · cases h
      refine ⟨Nat.le_refl _, by simp, ?_⟩
      simp
    · obtain ⟨h1, h2, h3⟩ := ih (k + 1) pg t h
      refine ⟨by omega, by simp; omega, ?_⟩
      have : pg - k = (pg - (k + 1)) + 1 := by omega
      rw [this]
      simpa using h3

/-- Every cross-contamination warning points at a real page of the slice on
which the foreign marker was found. -/
theorem cross_mem_facts (name : Text) (spages : List Text) (pg : Nat) (f o : Text)
    (hmem : Warning.cross pg f o ∈ crossWarnings name spages) :
    1 ≤ pg ∧ pg ≤ spages.length ∧ f ≠ name ∧
      f ∈ (findMarkers (spages.getD (pg - 1) [])).map pyStrip := by
  obtain ⟨pt, hpt, hw⟩ := List.mem_flatMap.mp hmem
  obtain ⟨m, hm, hsome⟩ := List.mem_filterMap.mp hw
  by_cases hs : pyStrip m = name
  · rw [if_pos hs] at hsome; cases hsome
  · rw [if_neg hs] at hsome
    cases hsome
    obtain ⟨h1, h2, h3⟩ := mem_enumFrom_facts spages 1 pt.1 pt.2 (by
      simpa using hpt)
    refine ⟨h1, by omega, hs, ?_⟩
    rw [show spages.getD (pt.1 - 1) [] = pt.2 from h3]
    exact List.mem_map.mpr ⟨m, hm, rfl⟩

/-- The full warning list of a slice, decomposed. -/
theorem sliceWarningsOf_decomp (allNames : List Text) (name : Text) (spages : List Text) :
    sliceWarningsOf allNames name spages =
      (crossWarnings name spages ++
        (if ownTotalFound name spages then [] else [.missingOwn name])) ++
      (allNames.filter (possibleCondition name (fullTextOf spages))).map
        (fun other => Warning.possibleData other name) := by
  rw [sliceWarningsOf, possibleLoop_eq]

/-- A slice produces no warnings exactly when its own total is present, no
foreign marker occurs, and the name-in-text loop fires for nobody. -/
theorem sliceWarningsOf_eq_nil_iff (allNames : List Text) (name : Text)
    (spages : List Text) :
    sliceWarningsOf allNames name spages = [] ↔
      (hasForeignMarker name spages = false ∧ ownTotalFound name spages = true ∧
       allNames.any (possibleCondition name (fullTextOf spages)) = false) := by
  rw [sliceWarningsOf_decomp, List.append_eq_nil, List.append_eq_nil]
  constructor
  · intro ⟨⟨hc, hown⟩, hp⟩
    refine ⟨(crossWarnings_eq_nil_iff name spages 1).mp hc, ?_, ?_⟩
    · by_cases h : ownTotalFound name spages
      · exact h
      · rw [if_neg h] at hown; cases hown
    · rw [List.any_eq_false]
      intro o ho
      have := List.filter_eq_nil_iff.mp (List.map_eq_nil_iff.mp hp) o ho
      simpa using this
  · intro ⟨hf, hown, hany⟩
    refine ⟨⟨(crossWarnings_eq_nil_iff name spages 1).mpr hf, by rw [if_pos hown]⟩, ?_⟩
    rw [List.map_eq_nil_iff, List.filter_eq_nil_iff]
    intro o ho
    exact (List.any_eq_false.mp hany) o ho

/-- Keys absent from the slice set are absent from the validation result. -/
theorem validate_lookup_none (allNames : List Text) :
    ∀ (l : List (Text × List Text)) (name : Text),
    name ∉ l.map Prod.fst →
    ((l.filterMap (fun nps =>
        let ws := sliceWarningsOf allNames nps.1 nps.2
        if ws = [] then none else some (nps.1, ws))).lookup name) = Option.none := by
  intro l
  induction l with
  | nil => intro name _; rfl
  | cons nps rest ih =>
    intro name hnot
    rw [List.map_cons, List.mem_cons] at hnot
    push_neg at hnot
    simp only [List.filterMap_cons]
    split
    · exact ih name hnot.2
    · rename_i b heq
      by_cases h : sliceWarningsOf allNames nps.1 nps.2 = []
      · simp [h] at heq
      · simp only [h, if_neg h] at heq
        cases heq
        have hbeq : (name == nps.1) = false := beq_eq_false_iff_ne.mpr hnot.1
        simp only [List.lookup, hbeq]
        exact ih name hnot.2

/-- Membership form of the validation-result lookup. -/
theorem validate_lookup_mem (allNames : List Text) :
    ∀ (l : List (Text × List Text)), (l.map Prod.fst).Nodup →
    ∀ (name : Text) (spages : List Text), (name, spages) ∈ l →
    ((l.filterMap (fun nps =>
        let ws := sliceWarningsOf allNames nps.1 nps.2
        if ws = [] then none else some (nps.1, ws))).lookup name) =
      (if sliceWarningsOf allNames name spages = [] then Option.none
       else some (sliceWarningsOf allNames name spages)) := by
  intro l
  induction l with
  | nil => intro _ name spages hmem; cases hmem
  | cons nps rest ih =>
    intro hnd name spages hmem
    rw [List.map_cons, List.nodup_cons] at hnd
    rw [List.mem_cons] at hmem
    rcases hmem with hmem | hmem
    · cases hmem
      simp only [List.filterMap_cons]
      split
      · rename_i heq
        by_cases h : sliceWarningsOf allNames name spages = []
        · rw [if_pos h]
          exact validate_lookup_none allNames rest name hnd.1
        · simp [h] at heq
      · rename_i b heq
        by_cases h : sliceWarningsOf allNames name spages = []
        · simp [h] at heq
        · simp only [h, if_neg h] at heq
          cases heq
          rw [if_neg h]
          simp [List.lookup]
    · have hne : nps.1 ≠ name := by
        intro hc
        exact hnd.1 (hc ▸ List.mem_map.mpr ⟨(name, spages), hmem, rfl⟩)
      simp only [List.filterMap_cons]
      split
      · exact ih hnd.2 name spages hmem
      · rename_i b heq
        by_cases h : sliceWarningsOf allNames nps.1 nps.2 = []
        · simp [h] at heq
        · simp only [h, if_neg h] at heq
          cases heq
          have hbeq : (name == nps.1) = false := beq_eq_false_iff_ne.mpr (Ne.symm hne)
          simp only [List.lookup, hbeq]
          exact ih hnd.2 name spages hmem

/-- With distinct slice keys, the validation result holds an entry for a
cardholder exactly when that cardholder's slice produced warnings. -/
theorem validateSplit_lookup (slices : List (Text × List Text))
    (hnd : (slices.map Prod.fst).Nodup) (name : Text) (spages : List Text)
    (hmem : (name, spages) ∈ slices) :
    (validateSplit slices).lookup name =
      (if sliceWarningsOf (slices.map Prod.fst) name spages = [] then Option.none
       else some (sliceWarningsOf (slices.map Prod.fst) name spages)) := by
  rw [validateSplit]
  exact validate_lookup_mem (slices.map Prod.fst) slices hnd name spages hmem

/-! ## C1 — validation of the split -/

/-- C1 (counterexample): a slice in which the owner's own boundary marker
appears twice (not "exactly once") produces no validation finding at all — the
code only checks presence, so the claimed "exactly once" direction fails. -/
theorem C1_counterexample :
    (([boundaryPage "ALICE ADAMS", boundaryPage "ALICE ADAMS"].flatMap
        findMarkers).map pyStrip).count (txt "ALICE ADAMS") = 2 ∧
    validateSplit slicesDupOwn = [] := by
  refine ⟨by decide, by decide⟩

/-- C1 (amended): with distinct slice keys, validation reports a failure for a
cardholder's slice if and only if the owner's marker is absent (zero
occurrences — duplicates are not detected), or some foreign `Total for` marker
appears anywhere in the slice, or another slice-owner's name occurs in the
slice text alongside a transaction-context pattern; and every
cross-contamination finding carries the (1-based) number of a real page of the
slice on which the foreign marker was found. -/
theorem C1_theorem (slices : List (Text × List Text))
    (hnd : (slices.map Prod.fst).Nodup) (name : Text) (spages : List Text)
    (hmem : (name, spages) ∈ slices) :
    ((validateSplit slices).lookup name ≠ Option.none ↔
      (ownTotalFound name spages = false ∨ hasForeignMarker name spages = true ∨
       (slices.map Prod.fst).any (possibleCondition name (fullTextOf spages)) = true)) ∧
    (∀ pg f, Warning.cross pg f name ∈
        sliceWarningsOf (slices.map Prod.fst) name spages →
      1 ≤ pg ∧ pg ≤ spages.length ∧ f ≠ name ∧
        f ∈ (findMarkers (spages.getD (pg - 1) [])).map pyStrip) := by
  constructor
  · rw [validateSplit_lookup slices hnd name spages hmem]
    by_cases h : sliceWarningsOf (slices.map Prod.fst) name spages = []
    · rw [if_pos h]
      obtain ⟨h1, h2, h3⟩ := (sliceWarningsOf_eq_nil_iff _ name spages).mp h
      simp [h1, h2, h3]
    · rw [if_neg h]
      simp only [ne_eq, reduceCtorEq, not_false_eq_true, true_iff]
      by_contra hcon
      push_neg at hcon
      apply h
      rw [sliceWarningsOf_eq_nil_iff]
      refine ⟨by simpa using hcon.2.1, by simpa using hcon.1, by simpa using hcon.2.2⟩
  · intro pg f hw
    rw [sliceWarningsOf_decomp] at hw
    rw [List.mem_append, List.mem_append] at hw
    rcases hw with (hw | hw) | hw
    · exact cross_mem_facts name spages pg f name hw
    · by_cases hown : ownTotalFound name spages
      · rw [if_pos hown] at hw; cases hw
      · rw [if_neg hown] at hw
        rcases List.mem_singleton.mp hw with h
        cases h
    · obtain ⟨o, _, ho⟩ := List.mem_map.mp hw
      cases ho

/-- C1 (witness): the amended rule at the contaminated fixture — Bob's slice
(which contains Alice's boundary page) is reported, and its cross finding
points at page 1 where Alice's marker sits. -/
theorem C1_witness :
    ((validateSplit slicesContam).lookup (txt "BOB BAKER") ≠ Option.none) ∧
    (1 ≤ 1 ∧ 1 ≤ ([boundaryPage "ALICE ADAMS", boundaryPage "BOB BAKER"] : List Text).length ∧
      txt "ALICE ADAMS" ≠ txt "BOB BAKER" ∧
      txt "ALICE ADAMS" ∈ (findMarkers (([boundaryPage "ALICE ADAMS",
        boundaryPage "BOB BAKER"] : List Text).getD 0 [])).map pyStrip) :=
  ⟨(C1_theorem slicesContam (by decide) (txt "BOB BAKER")
      [boundaryPage "ALICE ADAMS", boundaryPage "BOB BAKER"] (by decide)).1.mpr
      (Or.inr (Or.inl (by decide))),
   (C1_theorem slicesContam (by decide) (txt "BOB BAKER")
      [boundaryPage "ALICE ADAMS", boundaryPage "BOB BAKER"] (by decide)).2 1
      (txt "ALICE ADAMS") (by decide)⟩

/-! ## C3 — totals and floating point -/

/-- C3 (counterexample): the fixture with amounts `0.1` and `0.2` parses to the
rounded binary64 values, and the computed total is neither the exact decimal
sum `0.3` nor even the exact sum of the two stored amounts — classic
floating-point drift, refuting the fixed-point claim (while the transaction
count does equal the list length). -/
theorem C3_counterexample :
    cleanAmount (.str (txt "0.1")) = .ok ⟨7205759403792794, -56⟩ ∧
    ((parseStatement sheetTenths).toOption.getD []).map
        (fun g => (g.1, g.2.map (fun t => t.amount)))
      = [(txt "JOHN SMITH", [⟨7205759403792794, -56⟩, ⟨7205759403792794, -55⟩])] ∧
    (mkStatementTotals (matchTransactions ((parseStatement sheetTenths).toOption.getD [])
        (txt "JOHN SMITH"))).transactionCount = 2 ∧
    (mkStatementTotals (matchTransactions ((parseStatement sheetTenths).toOption.getD [])
        (txt "JOHN SMITH"))).totalAmount = ⟨5404319552844596, -54⟩ ∧
    F64.toRat ⟨5404319552844596, -54⟩ ≠ 1 / 10 + 2 / 10 ∧
    F64.toRat ⟨5404319552844596, -54⟩ ≠
      F64.toRat ⟨7205759403792794, -56⟩ + F64.toRat ⟨7205759403792794, -55⟩ := by
  refine ⟨by decide, by decide, by decide, by decide, ?_, ?_⟩
  · norm_num [F64.toRat, dyaToRat, show (54 : ℤ).toNat = 54 from rfl]
  · norm_num [F64.toRat, dyaToRat, show (54 : ℤ).toNat = 54 from rfl,
      show (55 : ℤ).toNat = 55 from rfl, show (56 : ℤ).toNat = 56 from rfl]

/-- C3 (amended): the transaction count equals the matched-list length, and the
total is the binary64 floating-point left-fold sum of the matched amounts — it
equals the exact rational sum precisely on chains whose every addition step is
exactly representable, and drifts otherwise (see the counterexample). -/
theorem C3_theorem :
    (∀ ts : List Transaction, (mkStatementTotals ts).transactionCount = ts.length) ∧
    (∀ amounts : List F64, exactChain ⟨0, 0⟩ amounts = true →
       (floatSumF amounts).toRat = (amounts.map F64.toRat).sum) := by
  constructor
  · intro ts; rfl
  · intro amounts h
    rw [floatSumF, floatSumF_exact_of_chain amounts ⟨0, 0⟩ h]
    have : (F64.toRat ⟨0, 0⟩) = 0 := by norm_num [F64.toRat, dyaToRat]
    rw [this, zero_add]

/-- C3 (witness): a chain of exactly representable sums (1.5 + 2.25) adds
exactly, and the count rule at a concrete list. -/
theorem C3_witness :
    (mkStatementTotals [txSample]).transactionCount = [txSample].length ∧
    (floatSumF [⟨3, -1⟩, ⟨9, -2⟩]).toRat =
      ([⟨3, -1⟩, ⟨9, -2⟩].map F64.toRat).sum :=
  ⟨C3_theorem.1 [txSample], C3_theorem.2 [⟨3, -1⟩, ⟨9, -2⟩] (by decide)⟩

/-! ## C4 — unparseable amounts -/

/-- C4 (counterexample): a data row whose amount cell holds the unparseable
string `"abc"` (with both name fields populated and the structural
prerequisites satisfied) makes `parse_statement` abort with an error instead of
skipping the row: the following well-formed row is never delivered, and no
skipped-rows report exists. -/
theorem C4_counterexample :
    sheetBadAmount.cellAt 2 4 = .str (txt "abc") ∧
    mapColumns sheetBadAmount 1 = .ok (buildColumnMap sheetBadAmount 1) ∧
    (processRows sheetBadAmount (buildColumnMap sheetBadAmount 1) [3] []).toOption.isSome
      = true ∧
    parseStatement sheetBadAmount = .error .amountParseError := by
  refine ⟨by decide, by decide, by decide, by decide⟩

/-- C4 (amended): a data row with a non-empty, unparseable amount string and
populated supplemental name fields aborts the whole extraction with an
unstructured error (`float` raises); only rows whose amount cell is empty are
skipped, and no skipped-rows report is produced anywhere. -/
theorem C4_theorem :
    (∀ (sh : Sheet) (cm : List (Field × Nat)) (r : Nat) (rest : List Nat)
       (acc : List (Text × List Transaction)) (s : Text),
       fieldCell sh cm r Field.amount = .str s →
       cleanValue (fieldCell sh cm r Field.suppFirstName) ≠ [] →
       cleanValue (fieldCell sh cm r Field.suppLastName) ≠ [] →
       cleanAmount (CellValue.str s) = .error .amountParseError →
       processRows sh cm (r :: rest) acc = .error .amountParseError) ∧
    (∀ (sh : Sheet) (cm : List (Field × Nat)) (r : Nat) (rest : List Nat)
       (acc : List (Text × List Transaction)),
       fieldCell sh cm r Field.amount = CellValue.none →
       processRows sh cm (r :: rest) acc = processRows sh cm rest acc) := by
  constructor
  · intro sh cm r rest acc s h1 h2 h3 h4
    simp [processRows, h1, h2, h3, h4]
  · intro sh cm r rest acc h1
    simp [processRows, h1]

/-- C4 (witness): the amended behaviour at the concrete bad-amount sheet. -/
theorem C4_witness :
    processRows sheetBadAmount (buildColumnMap sheetBadAmount 1) [2, 3] []
      = .error .amountParseError :=
  C4_theorem.1 sheetBadAmount (buildColumnMap sheetBadAmount 1) 2 [3] [] (txt "abc")
    (by decide) (by decide) (by decide) (by decide)

/-! ## C5 — required columns -/

/-- C5 (counterexample): a header sheet where the amount column and a date
column (`Transaction Date`) are both located still fails column validation,
because the code requires `Business Process Date` as well — not merely
"amount and at least one date". -/
theorem C5_counterexample :
    findHeaderRow sheetNoBpd = some 1 ∧
    (buildColumnMap sheetNoBpd 1).lookup Field.amount = some 2 ∧
    (buildColumnMap sheetNoBpd 1).lookup Field.transactionDate = some 3 ∧
    mapColumns sheetNoBpd 1 = .error (.missingRequiredColumns [Field.businessProcessDate]) ∧
    parseStatement sheetNoBpd = .error (.missingRequiredColumns [Field.businessProcessDate])
    := by
  refine ⟨by decide, by decide, by decide, by decide, by decide⟩

/-- C5 (amended): column validation succeeds exactly when all three of the
amount, business-process-date and transaction-date columns are located, and on
failure the error names exactly the missing ones. -/
theorem C5_theorem (sh : Sheet) (hr : Nat) :
    (mapColumns sh hr = .ok (buildColumnMap sh hr) ↔
      ((buildColumnMap sh hr).lookup Field.amount).isSome ∧
      ((buildColumnMap sh hr).lookup Field.businessProcessDate).isSome ∧
      ((buildColumnMap sh hr).lookup Field.transactionDate).isSome) ∧
    (∀ miss, mapColumns sh hr = .error (.missingRequiredColumns miss) →
      miss = requiredFields.filter (fun f => ((buildColumnMap sh hr).lookup f).isNone)) := by
  have hkey : (requiredFields.filter
      (fun f => ((buildColumnMap sh hr).lookup f).isNone) = []) ↔
      ((buildColumnMap sh hr).lookup Field.amount).isSome ∧
      ((buildColumnMap sh hr).lookup Field.businessProcessDate).isSome ∧
      ((buildColumnMap sh hr).lookup Field.transactionDate).isSome := by
    simp only [requiredFields, List.filter_eq_nil_iff, List.mem_cons, List.not_mem_nil,
      or_false, forall_eq_or_imp, forall_eq, Bool.not_eq_true, Option.isNone_eq_false_iff]
  constructor
  · by_cases h : requiredFields.filter
        (fun f => ((buildColumnMap sh hr).lookup f).isNone) = []
    · constructor
      · intro _; exact hkey.mp h
      · intro _; simp [mapColumns, h]
    · constructor
      · intro hcon
        rw [mapColumns, if_neg h] at hcon
        cases hcon
      · intro hloc; exact absurd (hkey.mpr hloc) h
  · intro miss hmiss
    by_cases h : requiredFields.filter
        (fun f => ((buildColumnMap sh hr).lookup f).isNone) = []
    · rw [mapColumns, if_pos h] at hmiss; cases hmiss
    · rw [mapColumns, if_neg h] at hmiss
      cases hmiss
      rfl

/-- C5 (witness): the amended rule at the concrete missing-column sheet. -/
theorem C5_witness :
    [Field.businessProcessDate] =
      requiredFields.filter (fun f => ((buildColumnMap sheetNoBpd 1).lookup f).isNone) :=
  (C5_theorem sheetNoBpd 1).2 [Field.businessProcessDate] (by decide)

/-! ## C6 — cardholder attribution -/

/-- C6 (counterexample): a data row with an amount and populated basic
(primary) name columns but empty supplemental name cells is skipped entirely —
the extraction returns an empty mapping, with no fallback to the primary name
fields (the column catalog does not even map them). -/
theorem C6_counterexample :
    (sheetBasicOnly.cellAt 1 4 = .str (txt "Basic Cardmember First Name") ∧
      sheetBasicOnly.cellAt 2 4 = .str (txt "John") ∧
      sheetBasicOnly.cellAt 2 5 = .str (txt "Doe") ∧
      sheetBasicOnly.cellAt 2 6 = .num ⟨5, 0⟩) ∧
    parseStatement sheetBasicOnly = .ok [] := by
  refine ⟨⟨by decide, by decide, by decide, by decide⟩, by decide⟩

/-- C6 (amended): the extractor attributes every transaction to the
supplemental cardholder name fields only; a row is skipped whenever either
supplemental name field is empty, regardless of any primary/basic name cells,
and when both are populated the grouping key and the record's names are built
from the supplemental fields. -/
theorem C6_theorem :
    (∀ (sh : Sheet) (cm : List (Field × Nat)) (r : Nat) (rest : List Nat)
       (acc : List (Text × List Transaction)),
       fieldCell sh cm r Field.amount ≠ CellValue.none →
       (cleanValue (fieldCell sh cm r Field.suppFirstName) = [] ∨
        cleanValue (fieldCell sh cm r Field.suppLastName) = []) →
       processRows sh cm (r :: rest) acc = processRows sh cm rest acc) ∧
    (∀ (sh : Sheet) (cm : List (Field × Nat)) (r : Nat) (rest : List Nat)
       (acc : List (Text × List Transaction)) (amt : F64),
       fieldCell sh cm r Field.amount ≠ CellValue.none →
       cleanValue (fieldCell sh cm r Field.suppFirstName) ≠ [] →
       cleanValue (fieldCell sh cm r Field.suppLastName) ≠ [] →
       cleanAmount (fieldCell sh cm r Field.amount) = .ok amt →
       processRows sh cm (r :: rest) acc =
         processRows sh cm rest (addToGroup
           (pyUpper (cleanValue (fieldCell sh cm r Field.suppFirstName)) ++ [' '] ++
            pyUpper (cleanValue (fieldCell sh cm r Field.suppLastName)))
           { firstName := pyUpper (cleanValue (fieldCell sh cm r Field.suppFirstName))
             lastName := pyUpper (cleanValue (fieldCell sh cm r Field.suppLastName))
             cardNumber := cleanValue (fieldCell sh cm r Field.suppCardNumber)
             amount := amt
             transactionDate := cleanDate (fieldCell sh cm r Field.transactionDate)
             postingDate := cleanDate (fieldCell sh cm r Field.businessProcessDate)
             merchant := (descParts sh cm r).headD []
             description := joinSep (txt " | ") (descParts sh cm r)
             referenceNumber := cleanValue (fieldCell sh cm r Field.transactionReference)
             rowNumber := r } acc)) := by
  constructor
  · intro sh cm r rest acc h1 h2
    rcases h2 with h2 | h2 <;> simp [processRows, h1, h2]
  · intro sh cm r rest acc amt h1 h2 h3 h4
    simp [processRows, h1, h2, h3, h4]

/-- C6 (witness): the amended skip rule at the concrete basic-names-only
sheet: its data row is dropped even though the primary name cells are set. -/
theorem C6_witness :
    processRows sheetBasicOnly (buildColumnMap sheetBasicOnly 1) [2] []
      = processRows sheetBasicOnly (buildColumnMap sheetBasicOnly 1) [] [] :=
  C6_theorem.1 sheetBasicOnly (buildColumnMap sheetBasicOnly 1) 2 [] []
    (by decide) (Or.inl (by decide))

/-! ## C9 — absent supplemental name columns -/

/-- C9: when the header row is found and column validation succeeds but the
supplemental name columns are absent from the column map, extraction completes
without error and returns the empty mapping — every data row is silently
skipped, and no error names the missing name columns. -/
theorem C9_theorem (sh : Sheet) (hr : Nat) (cm : List (Field × Nat))
    (hhr : findHeaderRow sh = some hr)
    (hcm : mapColumns sh hr = .ok cm)
    (h1 : cm.lookup Field.suppFirstName = Option.none)
    (_h2 : cm.lookup Field.suppLastName = Option.none) :
    parseStatement sh = .ok [] := by
  rw [parseStatement, hhr]
  simp only [hcm]
  exact processRows_no_supp_first sh cm h1 _ _

/-- C9 (witness): the concrete sheet with required columns but no
supplemental-name columns parses to the empty grouping. -/
theorem C9_witness : parseStatement sheetNoNames = .ok [] :=
  C9_theorem sheetNoNames 1 (buildColumnMap sheetNoNames 1)
    (by decide) (by decide) (by decide) (by decide)

/-! ## C7 — approximate name matching -/

/-- C7: a document-derived name with no exact key takes the transactions of the
first tabular key (in iteration order) that fuzzy-matches, and the fuzzy test
accepts exactly when both names have at least two whitespace tokens with equal
first tokens and equal last tokens — middle tokens are ignored. -/
theorem C7_theorem :
    (∀ (excel : List (Text × List Transaction)) (name k : Text) (ts : List Transaction),
       excel.lookup name = Option.none →
       excel.find? (fun kv => fuzzyMatch name kv.1) = some (k, ts) →
       matchTransactions excel name = ts) ∧
    (∀ a b : Text, fuzzyMatch a b = true ↔
       (pySplitWS a).length ≥ 2 ∧ (pySplitWS b).length ≥ 2 ∧
       (pySplitWS a).headD [] = (pySplitWS b).headD [] ∧
       (pySplitWS a).getLastD [] = (pySplitWS b).getLastD []) := by
  constructor
  · intro excel name k ts h1 h2
    simp [matchTransactions, h1, h2]
  · intro a b
    simp [fuzzyMatch, Bool.and_eq_true, decide_eq_true_eq, and_assoc]

/-- C7 (witness): the spec's scenario — the document name `"JOHN SMITH"`
reconciles with the tabular key `"JOHN Q SMITH"` despite the middle initial. -/
theorem C7_witness :
    matchTransactions excelGroups (txt "JOHN SMITH") = [txSample] ∧
    fuzzyMatch (txt "JOHN SMITH") (txt "JOHN Q SMITH") = true :=
  ⟨C7_theorem.1 excelGroups (txt "JOHN SMITH") (txt "JOHN Q SMITH") [txSample]
      (by decide) (by decide),
   (C7_theorem.2 (txt "JOHN SMITH") (txt "JOHN Q SMITH")).mpr (by decide)⟩

/-! ## C10 — single-token names never fuzzy-match -/

/-- C10: the fuzzy test fails whenever either side has fewer than two
whitespace tokens, so a single-token document name with no exact key receives
the empty transaction list. -/
theorem C10_theorem :
    (∀ a b : Text,
       (pySplitWS a).length < 2 ∨ (pySplitWS b).length < 2 → fuzzyMatch a b = false) ∧
    (∀ (excel : List (Text × List Transaction)) (name : Text),
       (pySplitWS name).length < 2 → excel.lookup name = Option.none →
       matchTransactions excel name = []) := by
  have hshort : ∀ a b : Text,
      (pySplitWS a).length < 2 ∨ (pySplitWS b).length < 2 → fuzzyMatch a b = false := by
    intro a b h
    rcases h with h | h
    · have h2 : ¬((pySplitWS a).length ≥ 2) := by omega
      simp [fuzzyMatch, h2]
    · have h2 : ¬((pySplitWS b).length ≥ 2) := by omega
      simp [fuzzyMatch, h2]
  refine ⟨hshort, ?_⟩
  intro excel name hlen hnone
  rw [matchTransactions, hnone]
  rw [List.find?_eq_none.mpr (fun kv _ => by simp [hshort name kv.1 (Or.inl hlen)])]

/-- C10 (witness): a single-token document name gets zero transactions. -/
theorem C10_witness :
    matchTransactions excelGroups (txt "MADONNA") = [] ∧
    fuzzyMatch (txt "MADONNA") (txt "JOHN Q SMITH") = false :=
  ⟨C10_theorem.2 excelGroups (txt "MADONNA") (by decide) (by decide),
   C10_theorem.1 (txt "MADONNA") (txt "JOHN Q SMITH") (Or.inl (by decide))⟩

/-! ## Segmentation lemmas (first pass) -/

/-- Total pages found by the first pass lie in the scanned range and are
strictly increasing. -/
theorem firstPassGo_totals_facts :
    ∀ (rest : List Text) (p : Nat) (found : Bool),
    (∀ qn ∈ (firstPassGo rest p found).1, p ≤ qn.1 ∧ qn.1 < p + rest.length) ∧
    (firstPassGo rest p found).1.Pairwise (fun a b => a.1 < b.1) := by
  intro rest
  induction rest with
  | nil => intro p found; simp [firstPassGo]
  | cons t r ih =>
    intro p found
    have hnext : ∀ (fd fd2 : Bool),
        (firstPassGo (t :: r) p fd).1 = (firstPassGo r (p + 1) fd2).1 →
        (∀ qn ∈ (firstPassGo (t :: r) p fd).1, p ≤ qn.1 ∧ qn.1 < p + (t :: r).length) ∧
        (firstPassGo (t :: r) p fd).1.Pairwise (fun a b => a.1 < b.1) := by
      intro fd fd2 heq
      rw [heq]
      refine ⟨?_, (ih (p + 1) fd2).2⟩
      intro qn hqn
      have := (ih (p + 1) fd2).1 qn hqn
      constructor <;> [omega; (simp only [List.length_cons]; omega)]
    cases hm : findMarkers t with
    | cons m ms =>
      rw [firstPassGo]
      simp only [hm]
      refine ⟨?_, ?_⟩
      · intro qn hqn
        rw [List.mem_cons] at hqn
        rcases hqn with hqn | hqn
        · cases hqn; simp
        · have := (ih (p + 1) true).1 qn hqn
          constructor <;> [omega; (simp only [List.length_cons]; omega)]
      · rw [List.pairwise_cons]
        refine ⟨?_, (ih (p + 1) true).2⟩
        intro qn hqn
        have := (ih (p + 1) true).1 qn hqn
        omega
    | nil =>
      by_cases hb : isBlankOrHeaderOnlyPage t = true
      · exact hnext found found (by rw [firstPassGo]; simp [hm, hb])
      · simp only [Bool.not_eq_true] at hb
        cases found with
        | true => exact hnext true true (by rw [firstPassGo]; simp [hm, hb])
        | false => exact hnext false false (by rw [firstPassGo]; simp [hm, hb])

/-- Pages the first pass classifies blank are truly blank-classified. -/
theorem firstPassGo_blanks_facts :
    ∀ (rest : List Text) (p : Nat) (found : Bool),
    ∀ q ∈ (firstPassGo rest p found).2.1,
      p ≤ q ∧ q < p + rest.length ∧
      isBlankOrHeaderOnlyPage (rest.getD (q - p) []) = true := by
  intro rest
  induction rest with
  | nil => intro p found q hq; simp [firstPassGo] at hq
  | cons t r ih =>
    intro p found q hq
    have htail : ∀ fd2 : Bool, q ∈ (firstPassGo r (p + 1) fd2).2.1 →
        p ≤ q ∧ q < p + (t :: r).length ∧
        isBlankOrHeaderOnlyPage ((t :: r).getD (q - p) []) = true := by
      intro fd2 hq2
      have := ih (p + 1) fd2 q hq2
      refine ⟨by omega, by simp only [List.length_cons]; omega, ?_⟩
      have hgt : q - p = (q - (p + 1)) + 1 := by omega
      rw [hgt]
      simpa using this.2.2
    cases hm : findMarkers t with
    | cons m ms =>
      rw [firstPassGo] at hq
      simp only [hm] at hq
      exact htail true hq
    | nil =>
      by_cases hb : isBlankOrHeaderOnlyPage t = true
      · rw [firstPassGo] at hq
        simp only [hm, hb, if_pos rfl] at hq
        rcases List.mem_cons.mp hq with hq | hq
        · subst hq
          exact ⟨Nat.le_refl _, by simp, by simpa using hb⟩
        · exact htail found hq
      · simp only [Bool.not_eq_true] at hb
        cases found with
        | true =>
          rw [firstPassGo] at hq
          simp only [hm, hb] at hq
          exact htail true hq
        | false =>
          rw [firstPassGo] at hq
          simp only [hm, hb] at hq
          exact htail false hq

/-- The first-cardholder start scan returns 1 whenever every page below the
first boundary is blank or summary — which the first pass guarantees. -/
theorem findFirstStart_go_all_skip (pages : List Text) (blanks summary : List Nat) :
    ∀ (fuel p : Nat),
    (∀ q, p ≤ q → q < p + fuel → q ∈ blanks ∨ q ∈ summary) →
    findFirstStart.go pages blanks summary p fuel = 1 := by
  intro fuel
  induction fuel with
  | zero => intro p _; rfl
  | succ f ih =>
    intro p hall
    rw [findFirstStart.go]
    rw [if_neg (by
      have := hall p (Nat.le_refl _) (by omega)
      tauto)]
    exact ih (p + 1) (fun q h1 h2 => hall q (by omega) (by omega))

/-- Facts about the blank-skipping advance loop's body, by fuel induction:
the result is between the start and the fuel bound; all pages it skips are
blank-classified; the blank list stays blank-classified; and where it stops
before the fuel runs out, the page there is not blank. -/
theorem advanceStartGo_facts (pages : List Text) :
    ∀ (fuel : Nat) (blanks : List Nat) (start : Nat),
    (∀ q ∈ blanks, isBlankOrHeaderOnlyPage (pageText pages q) = true) →
    start ≤ (advanceStartGo pages blanks start fuel).1 ∧
    (advanceStartGo pages blanks start fuel).1 ≤ start + fuel ∧
    (∀ q, start ≤ q → q < (advanceStartGo pages blanks start fuel).1 →
      isBlankOrHeaderOnlyPage (pageText pages q) = true) ∧
    (∀ q ∈ (advanceStartGo pages blanks start fuel).2,
      isBlankOrHeaderOnlyPage (pageText pages q) = true) ∧
    ((advanceStartGo pages blanks start fuel).1 < start + fuel →
      isBlankOrHeaderOnlyPage
        (pageText pages (advanceStartGo pages blanks start fuel).1) = false) := by
  intro fuel
  induction fuel with
  | zero =>
    intro blanks start hwf
    rw [advanceStartGo]
    exact ⟨Nat.le_refl _, by omega, fun q h1 h2 => absurd h2 (by omega), hwf,
      fun h => absurd h (by omega)⟩
  | succ f ih =>
    intro blanks start hwf
    rw [advanceStartGo]
    by_cases hmem : start ∈ blanks
    · rw [if_pos hmem]
      obtain ⟨h1, h2, h3, h4, h5⟩ := ih blanks (start + 1) hwf
      refine ⟨by omega, by omega, ?_, h4, by intro h; exact h5 (by omega)⟩
      intro q hq1 hq2
      by_cases hq : q = start
      · subst hq; exact hwf _ hmem
      · exact h3 q (by omega) hq2
    · rw [if_neg hmem]
      by_cases hbl : isBlankOrHeaderOnlyPage (pageText pages start) = true
      · rw [if_pos hbl]
        have hwf2 : ∀ q ∈ blanks ++ [start],
            isBlankOrHeaderOnlyPage (pageText pages q) = true := by
          intro q hq
          rcases List.mem_append.mp hq with hq | hq
          · exact hwf q hq
          · rw [List.mem_singleton.mp hq]; exact hbl
        obtain ⟨h1, h2, h3, h4, h5⟩ := ih (blanks ++ [start]) (start + 1) hwf2
        refine ⟨by omega, by omega, ?_, h4, by intro h; exact h5 (by omega)⟩
        intro q hq1 hq2
        by_cases hq : q = start
        · subst hq; exact hbl
        · exact h3 q (by omega) hq2
      · rw [if_neg hbl]
        exact ⟨Nat.le_refl _, by omega, fun q h1 h2 => absurd h2 (by omega), hwf,
          fun _ => by simpa using hbl⟩

/-- The advance-loop facts in terms of the end page. -/
theorem advanceStart_facts (pages : List Text) (blanks : List Nat) (start endP : Nat)
    (hwf : ∀ q ∈ blanks, isBlankOrHeaderOnlyPage (pageText pages q) = true) :
    start ≤ (advanceStart pages blanks start endP).1 ∧
    (advanceStart pages blanks start endP).1 ≤ max start endP ∧
    (∀ q, start ≤ q → q < (advanceStart pages blanks start endP).1 →
      isBlankOrHeaderOnlyPage (pageText pages q) = true) ∧
    (∀ q ∈ (advanceStart pages blanks start endP).2,
      isBlankOrHeaderOnlyPage (pageText pages q) = true) ∧
    ((advanceStart pages blanks start endP).1 < endP →
      isBlankOrHeaderOnlyPage
        (pageText pages (advanceStart pages blanks start endP).1) = false) := by
  obtain ⟨h1, h2, h3, h4, h5⟩ := advanceStartGo_facts pages (endP - start) blanks
    start hwf
  rw [advanceStart]
  exact ⟨h1, by omega, h3, h4, fun h => h5 (by omega)⟩

/-- Inserting a fresh key into a Python dict appends it. -/
theorem dictInsert_append {α : Type} (k : Text) (v : α) :
    ∀ (l : List (Text × α)), k ∉ l.map Prod.fst → dictInsert k v l = l ++ [(k, v)] := by
  intro l
  induction l with
  | nil => intro _; rfl
  | cons kv rest ih =>
    intro hk
    rw [List.map_cons, List.mem_cons] at hk
    push_neg at hk
    rw [dictInsert, if_neg (fun hc => hk.1 hc.symm), ih hk.2, List.cons_append]

/-- Members of a dict after insertion: an old entry or the inserted pair. -/
theorem dictInsert_mem {α : Type} (k : Text) (v : α) :
    ∀ (l : List (Text × α)) (e : Text × α),
    e ∈ dictInsert k v l → e ∈ l ∨ e = (k, v) := by
  intro l
  induction l with
  | nil =>
    intro e he
    rw [dictInsert] at he
    right
    exact List.mem_singleton.mp he
  | cons kv rest ih =>
    intro e he
    rw [dictInsert] at he
    by_cases hk : kv.1 = k
    · rw [if_pos hk] at he
      rcases List.mem_cons.mp he with he | he
      · right; rw [he, hk]
      · left; exact List.mem_cons_of_mem _ he
    · rw [if_neg hk] at he
      rcases List.mem_cons.mp he with he | he
      · left; rw [he]; exact List.mem_cons_self _ _
      · rcases ih e he with h | h
        · left; exact List.mem_cons_of_mem _ h
        · right; exact h

/-- Every assigned range ends at a boundary page carrying that cardholder's
name (ranges are only ever closed by a `Total for` page). -/
theorem assignGo_mem (pages : List Text) (summary : List Nat) :
    ∀ (ts : List (Nat × Text)) (i last : Nat) (blanks : List Nat)
      (acc : List (Text × Nat × Nat)) (entry : Text × Nat × Nat),
    entry ∈ assignGo pages summary ts i last blanks acc →
    entry ∈ acc ∨ (entry.2.2, entry.1) ∈ ts := by
  intro ts
  induction ts with
  | nil => intro i last blanks acc entry he; left; exact he
  | cons en rest ih =>
    intro i last blanks acc entry he
    rw [assignGo] at he
    by_cases hskip : en.2 ∈ skipNames
    · rw [if_pos hskip] at he
      rcases ih _ _ _ _ _ he with h | h
      · left; exact h
      · right; exact List.mem_cons_of_mem _ h
    · rw [if_neg hskip] at he
      by_cases hle : (if i = 0 ∨ last = 0
            then (findFirstStart pages blanks summary en.1, blanks)
            else advanceStart pages blanks (last + 1) en.1).1 ≤ en.1
      · rw [if_pos hle] at he
        rcases ih _ _ _ _ _ he with h | h
        · rcases dictInsert_mem _ _ _ _ h with h2 | h2
          · left; exact h2
          · right
            rw [h2]
            exact List.mem_cons_self _ _
        · right; exact List.mem_cons_of_mem _ h
      · rw [if_neg hle] at he
        rcases ih _ _ _ _ _ he with h | h
        · left; exact h
        · right; exact List.mem_cons_of_mem _ h

/-- Master invariant of the range-assignment pass (after the first cardholder):
with distinct, non-skip-listed names, the assigned ranges stay ordered and
disjoint, bounded by the last boundary page, and together with the summary and
blank pages they cover every page up to the last boundary. -/
theorem assignGo_master (pages : List Text) (summary : List Nat) :
    ∀ (ts : List (Nat × Text)) (i last : Nat) (blanks : List Nat)
      (acc : List (Text × Nat × Nat)),
    (∀ qn ∈ ts, qn.2 ∉ skipNames) →
    (ts.map Prod.snd).Nodup →
    (∀ qn ∈ ts, last < qn.1) →
    ts.Pairwise (fun a b => a.1 < b.1) →
    1 ≤ last → i ≠ 0 →
    (∀ k ∈ acc.map Prod.fst, k ∉ ts.map Prod.snd) →
    acc.Pairwise (fun a b => a.2.2 < b.2.1) →
    (∀ e ∈ acc, 1 ≤ e.2.1 ∧ e.2.1 ≤ e.2.2 ∧ e.2.2 ≤ last) →
    (∀ q ∈ blanks, isBlankOrHeaderOnlyPage (pageText pages q) = true) →
    (∀ q, 1 ≤ q → q ≤ last →
      (∃ e ∈ acc, e.2.1 ≤ q ∧ q ≤ e.2.2) ∨ q ∈ summary ∨
      isBlankOrHeaderOnlyPage (pageText pages q) = true) →
    (assignGo pages summary ts i last blanks acc).Pairwise
      (fun a b => a.2.2 < b.2.1) ∧
    (∀ e ∈ assignGo pages summary ts i last blanks acc,
      1 ≤ e.2.1 ∧ e.2.1 ≤ e.2.2 ∧ e.2.2 ≤ (ts.getLast?.map Prod.fst).getD last) ∧
    (∀ q, 1 ≤ q → q ≤ (ts.getLast?.map Prod.fst).getD last →
      (∃ e ∈ assignGo pages summary ts i last blanks acc, e.2.1 ≤ q ∧ q ≤ e.2.2) ∨
      q ∈ summary ∨ isBlankOrHeaderOnlyPage (pageText pages q) = true) := by
  intro ts
  induction ts with
  | nil =>
    intro i last blanks acc _ _ _ _ _ _ _ hpw hbd hbl hcov
    rw [assignGo]
    exact ⟨hpw, by simpa using hbd, by simpa using hcov⟩
  | cons en rest ih =>
    intro i last blanks acc hskip hnodup hlast hpw hge1 hi hfresh haccpw haccbd hbl hcov
    have hlt : last < en.1 := hlast en (List.mem_cons_self _ _)
    have hsb := advanceStart_facts pages blanks (last + 1) en.1 hbl
    obtain ⟨hsb1, hsb2, hsb3, hsb4, _⟩ := hsb
    have hsble : (advanceStart pages blanks (last + 1) en.1).1 ≤ en.1 := by
      have : max (last + 1) en.1 = en.1 := by omega
      omega
    have hglaux : ∀ (l : List (Nat × Text)) (a : Nat × Text) (d : Nat),
        ((a :: l).getLast?.map Prod.fst).getD d = ((l.getLast?.map Prod.fst).getD a.1)
        := by
      intro l
      induction l with
      | nil => intro a d; simp
      | cons b bl ihl =>
        intro a d
        rw [List.getLast?_cons_cons, ihl b d, ihl b a.1]
    have hgl : ((en :: rest).getLast?.map Prod.fst).getD last =
        ((rest.getLast?.map Prod.fst).getD en.1) := hglaux rest en last
    rw [assignGo, if_neg (hskip en (List.mem_cons_self _ _)),
      if_neg (show ¬(i = 0 ∨ last = 0) by omega)]
    simp only
    rw [if_pos hsble]
    have hkfresh : en.2 ∉ acc.map Prod.fst := by
      intro hc
      exact hfresh en.2 hc (by simp)
    rw [dictInsert_append en.2 _ acc hkfresh]
    rw [List.pairwise_cons] at hpw
    rw [List.map_cons, List.nodup_cons] at hnodup
    have hconc := ih (i + 1) en.1 (advanceStart pages blanks (last + 1) en.1).2
      (acc ++ [(en.2, ((advanceStart pages blanks (last + 1) en.1).1, en.1))])
      (fun qn hqn => hskip qn (List.mem_cons_of_mem _ hqn))
      hnodup.2
      (fun qn hqn => hpw.1 qn hqn)
      hpw.2
      (by omega)
      (by omega)
      (by
        intro k hk
        rw [List.map_append, List.mem_append] at hk
        rcases hk with hk | hk
        · intro hc
          exact hfresh k hk (List.mem_cons_of_mem _ hc)
        · simp only [List.map_cons, List.map_nil, List.mem_singleton] at hk
          rw [hk]
          exact hnodup.1)
      (by
        rw [List.pairwise_append]
        refine ⟨haccpw, List.pairwise_singleton _ _, ?_⟩
        intro a ha b hb
        rw [List.mem_singleton.mp hb]
        have := (haccbd a ha).2.2
        simp only
        omega)
      (by
        intro e he
        rw [List.mem_append] at he
        rcases he with he | he
        · have := haccbd e he
          exact ⟨this.1, this.2.1, by omega⟩
        · rw [List.mem_singleton.mp he]
          exact ⟨show 1 ≤ (advanceStart pages blanks (last + 1) en.1).1 by omega,
            hsble, Nat.le_refl _⟩)
      hsb4
      (by
        intro q hq1 hq2
        by_cases hql : q ≤ last
        · rcases hcov q hq1 hql with ⟨e, he, hee⟩ | h | h
          · exact Or.inl ⟨e, List.mem_append.mpr (Or.inl he), hee⟩
          · exact Or.inr (Or.inl h)
          · exact Or.inr (Or.inr h)
        · by_cases hqs : q < (advanceStart pages blanks (last + 1) en.1).1
          · exact Or.inr (Or.inr (hsb3 q (by omega) hqs))
          · exact Or.inl ⟨(en.2, ((advanceStart pages blanks (last + 1) en.1).1, en.1)),
              List.mem_append.mpr (Or.inr (List.mem_singleton.mpr rfl)),
              by constructor <;> simp <;> omega⟩)
    rw [hgl]
    exact hconc

/-- The defaulted last boundary page of a nonempty totals list steps over its
head. -/
theorem getLast_fst_cons :
    ∀ (l : List (Nat × Text)) (a : Nat × Text) (d : Nat),
    ((a :: l).getLast?.map Prod.fst).getD d = ((l.getLast?.map Prod.fst).getD a.1) := by
  intro l
  induction l with
  | nil => intro a d; simp
  | cons b bl ihl =>
    intro a d
    rw [List.getLast?_cons_cons, ihl b d, ihl b a.1]

/-- Below every total page, a scanned page is blank or summary
(`first_total_found` still false). -/
theorem firstPassGo_prefirst_cover :
    ∀ (rest : List Text) (p : Nat),
    ∀ q, p ≤ q → q < p + rest.length →
    (∀ bn ∈ (firstPassGo rest p false).1, q < bn.1) →
    q ∈ (firstPassGo rest p false).2.1 ∨ q ∈ (firstPassGo rest p false).2.2 := by
  intro rest
  induction rest with
  | nil => intro p q h1 h2; simp at h1 h2; omega
  | cons t r ih =>
    intro p q h1 h2 hbelow
    rw [firstPassGo]
    rw [firstPassGo] at hbelow
    cases hm : findMarkers t with
    | cons m ms =>
      rw [hm] at hbelow
      have := hbelow (p, pyStrip m) (List.mem_cons_self _ _)
      omega
    | nil =>
      rw [hm] at hbelow
      by_cases hb : isBlankOrHeaderOnlyPage t = true
      · simp only [hb, if_pos rfl] at hbelow ⊢
        by_cases hq : q = p
        · left; rw [hq]; exact List.mem_cons_self _ _
        · have := ih (p + 1) q (by omega) (by simp at h2 ⊢; omega) hbelow
          rcases this with h | h
          · left; exact List.mem_cons_of_mem _ h
          · right; exact h
      · simp only [Bool.not_eq_true] at hb
        simp only [hb, Bool.false_eq_true, if_false, Bool.not_false, if_pos rfl]
          at hbelow ⊢
        by_cases hq : q = p
        · right; rw [hq]; exact List.mem_cons_self _ _
        · have := ih (p + 1) q (by omega) (by simp at h2 ⊢; omega) hbelow
          rcases this with h | h
          · left; exact h
          · right; exact List.mem_cons_of_mem _ h

/-! ## C2 — page-range invariants -/

/-- C2 (counterexample): in a three-page document with one leading summary page,
one boundary page and one trailing content page, page 1 is accounted for twice
(it is a summary page and also lies inside the assigned range `[1, 2]`) while
page 3 is accounted for zero times (not assigned, not summary, not blank) — so
the claimed exactly-once partition fails in both directions. -/
theorem C2_counterexample :
    findCardholderSections docGap = [(txt "ALICE ADAMS", (1, 2))] ∧
    (firstPass docGap).2.2 = [1] ∧
    (∃ e ∈ findCardholderSections docGap, e.2.1 ≤ 1 ∧ 1 ≤ e.2.2) ∧
    docGap.length = 3 ∧
    (¬ ∃ e ∈ findCardholderSections docGap, e.2.1 ≤ 3 ∧ 3 ≤ e.2.2) ∧
    3 ∉ (firstPass docGap).2.2 ∧ 3 ∉ (firstPass docGap).2.1 ∧
    isBlankOrHeaderOnlyPage (pageText docGap 3) = false := by
  refine ⟨by decide, by decide, by decide, by decide, by decide, by decide, by decide,
    by decide⟩

/-- C2 (amended): when the boundary-marker names are pairwise distinct and none
is on the administrative skip list, the assigned ranges are pairwise disjoint
and strictly increasing in output order, each range is non-empty with start at
least 1, and every page from 1 up to the last boundary page is assigned, a
leading summary page, or a blank/continuation page — but pages can be counted
more than once (summary pages sit inside the first range) and pages after the
last boundary page belong to no category. -/
theorem C2_theorem (pages : List Text)
    (hskip : ∀ qn ∈ (firstPass pages).1, qn.2 ∉ skipNames)
    (hnodup : ((firstPass pages).1.map Prod.snd).Nodup) :
    (findCardholderSections pages).Pairwise (fun a b => a.2.2 < b.2.1) ∧
    (∀ e ∈ findCardholderSections pages,
      1 ≤ e.2.1 ∧ e.2.1 ≤ e.2.2 ∧
      e.2.2 ≤ (((firstPass pages).1.getLast?.map Prod.fst).getD 0)) ∧
    (∀ q, 1 ≤ q → q ≤ (((firstPass pages).1.getLast?.map Prod.fst).getD 0) →
      (∃ e ∈ findCardholderSections pages, e.2.1 ≤ q ∧ q ≤ e.2.2) ∨
      q ∈ (firstPass pages).2.2 ∨
      isBlankOrHeaderOnlyPage (pageText pages q) = true) := by
  have hunfold : findCardholderSections pages =
      assignGo pages (firstPass pages).2.2 (firstPass pages).1 0 0
        (firstPass pages).2.1 [] := rfl
  have hfg : firstPassGo pages 1 false = firstPass pages := rfl
  have htotfacts := firstPassGo_totals_facts pages 1 false
  have hblfacts := firstPassGo_blanks_facts pages 1 false
  rw [hfg] at htotfacts hblfacts
  rw [hunfold]
  cases htot : (firstPass pages).1 with
  | nil =>
    rw [assignGo]
    refine ⟨List.Pairwise.nil, by simp, ?_⟩
    intro q hq1 hq2
    simp at hq2
    omega
  | cons bn1 ts =>
    rw [htot] at htotfacts hskip hnodup
    have hb1 : 1 ≤ bn1.1 ∧ bn1.1 < 1 + pages.length :=
      htotfacts.1 bn1 (List.mem_cons_self _ _)
    have hffs : findFirstStart pages (firstPass pages).2.1 (firstPass pages).2.2 bn1.1
        = 1 := by
      rw [findFirstStart]
      apply findFirstStart_go_all_skip
      intro q hq1 hq2
      have hqlt : q < bn1.1 := by omega
      have hcover := firstPassGo_prefirst_cover pages 1 q hq1 (by omega)
        (by
          intro bn hbn
          rw [hfg, htot] at hbn
          rcases List.mem_cons.mp hbn with hbn | hbn
          · subst hbn; omega
          · have := (List.pairwise_cons.mp htotfacts.2).1 bn hbn
            omega)
      rw [hfg] at hcover
      exact hcover
    rw [assignGo, if_neg (hskip bn1 (List.mem_cons_self _ _)),
      if_pos (Or.inl rfl)]
    simp only [hffs]
    rw [if_pos hb1.1]
    have hblwf : ∀ q ∈ (firstPass pages).2.1,
        isBlankOrHeaderOnlyPage (pageText pages q) = true := by
      intro q hq
      exact (hblfacts q hq).2.2
    rw [List.map_cons, List.nodup_cons] at hnodup
    rw [List.pairwise_cons] at htotfacts
    have hmaster := assignGo_master pages (firstPass pages).2.2 ts 1 bn1.1
      (firstPass pages).2.1 (dictInsert bn1.2 (1, bn1.1) [])
      (fun qn hqn => hskip qn (List.mem_cons_of_mem _ hqn))
      hnodup.2
      (fun qn hqn => htotfacts.2.1 qn hqn)
      htotfacts.2.2
      hb1.1
      (by omega)
      (by
        intro k hk
        rw [show dictInsert bn1.2 (1, bn1.1) [] = [(bn1.2, (1, bn1.1))] from rfl] at hk
        simp only [List.map_cons, List.map_nil, List.mem_singleton] at hk
        rw [hk]
        exact hnodup.1)
      (by
        rw [show dictInsert bn1.2 (1, bn1.1) [] = [(bn1.2, (1, bn1.1))] from rfl]
        exact List.pairwise_singleton _ _)
      (by
        intro e he
        rw [show dictInsert bn1.2 (1, bn1.1) [] = [(bn1.2, (1, bn1.1))] from rfl] at he
        rw [List.mem_singleton.mp he]
        exact ⟨Nat.le_refl _, hb1.1, Nat.le_refl _⟩)
      hblwf
      (by
        intro q hq1 hq2
        refine Or.inl ⟨(bn1.2, (1, bn1.1)), ?_, hq1, hq2⟩
        rw [show dictInsert bn1.2 (1, bn1.1) [] = [(bn1.2, (1, bn1.1))] from rfl]
        exact List.mem_singleton.mpr rfl)
    rw [getLast_fst_cons ts bn1 0]
    exact hmaster

/-- C2 (witness): the amended invariants at the ten-page scenario document. -/
theorem C2_witness :
    (findCardholderSections docScenario).Pairwise (fun a b => a.2.2 < b.2.1) ∧
    (∀ e ∈ findCardholderSections docScenario,
      1 ≤ e.2.1 ∧ e.2.1 ≤ e.2.2 ∧
      e.2.2 ≤ (((firstPass docScenario).1.getLast?.map Prod.fst).getD 0)) ∧
    (∀ q, 1 ≤ q → q ≤ (((firstPass docScenario).1.getLast?.map Prod.fst).getD 0) →
      (∃ e ∈ findCardholderSections docScenario, e.2.1 ≤ q ∧ q ≤ e.2.2) ∨
      q ∈ (firstPass docScenario).2.2 ∨
      isBlankOrHeaderOnlyPage (pageText docScenario q) = true) :=
  C2_theorem docScenario (by decide) (by decide)

/-! ## C8 — boundary pages close ranges -/

/-- C8: every assigned range is closed at a boundary page carrying that
cardholder's name; the next range opens at the first page after the previous
boundary that is not blank (stopping at the next boundary page at the latest);
and the spec's ten-page scenario — markers on pages 3, 7 and 10, blank page 5 —
yields the ranges `[1,3]`, `[4,7]`, `[8,10]`, with page 5 dropped from the
second cardholder's sliced output while the third cardholder still starts at
page 8, and the final range closing at the last page. -/
theorem C8_theorem :
    (∀ (pages : List Text) (n : Text) (s e : Nat),
       (n, (s, e)) ∈ findCardholderSections pages → (e, n) ∈ (firstPass pages).1) ∧
    (∀ (pages : List Text) (blanks : List Nat) (start endP : Nat),
       (∀ q ∈ blanks, isBlankOrHeaderOnlyPage (pageText pages q) = true) →
       start ≤ (advanceStart pages blanks start endP).1 ∧
       (∀ q, start ≤ q → q < (advanceStart pages blanks start endP).1 →
         isBlankOrHeaderOnlyPage (pageText pages q) = true) ∧
       ((advanceStart pages blanks start endP).1 < endP →
         isBlankOrHeaderOnlyPage
           (pageText pages (advanceStart pages blanks start endP).1) = false)) ∧
    (findCardholderSections docScenario =
       [(txt "ALICE ADAMS", (1, 3)), (txt "BOB BAKER", (4, 7)),
        (txt "CARA COLE", (8, 10))] ∧
     (splitByCardholder docScenario).map (fun x => (x.1, x.2.keptPageNums)) =
       [(txt "ALICE ADAMS", [1, 2, 3]), (txt "BOB BAKER", [4, 6, 7]),
        (txt "CARA COLE", [8, 9, 10])] ∧
     (firstPass docScenario).2.1 = [5] ∧ docScenario.length = 10) := by
  refine ⟨?_, ?_, by decide, by decide, by decide, by decide⟩
  · intro pages n s e hmem
    have := assignGo_mem pages (firstPass pages).2.2 (firstPass pages).1 0 0
      (firstPass pages).2.1 [] (n, (s, e)) hmem
    rcases this with h | h
    · cases h
    · exact h
  · intro pages blanks start endP hwf
    obtain ⟨h1, _, h3, _, h5⟩ := advanceStart_facts pages blanks start endP hwf
    exact ⟨h1, h3, h5⟩

/-- C8 (witness): the general clauses instantiated on the scenario — Bob's
range `[4,7]` is closed by the boundary marker on page 7, and the advance past
the blank page list `[5]` starting after Alice's boundary returns page 4. -/
theorem C8_witness :
    ((7, txt "BOB BAKER") ∈ (firstPass docScenario).1) ∧
    (4 ≤ (advanceStart docScenario [5] 4 7).1 ∧
     (∀ q, 4 ≤ q → q < (advanceStart docScenario [5] 4 7).1 →
       isBlankOrHeaderOnlyPage (pageText docScenario q) = true) ∧
     ((advanceStart docScenario [5] 4 7).1 < 7 →
       isBlankOrHeaderOnlyPage
         (pageText docScenario (advanceStart docScenario [5] 4 7).1) = false)) :=
  ⟨C8_theorem.1 docScenario (txt "BOB BAKER") 4 7 (by decide),
   C8_theorem.2.1 docScenario [5] 4 7 (by decide)⟩

end Amex
